import Mathlib

/-!
# Verification of the AI-Lawyer preprocessing pipeline

Shallow embedding of the multi-stage document pipeline from
`preprocessing/src`: text cleaning with its validation gate
(`clean_pakistan_code.py`, `clean_kp_code.py`, `clean_balochistan_code.py`,
`clean_supremecourt_judgments.py`), the stage gates
(`extract_text.py`, `clean_pakistan_code.py`), chunk-status update
(`update_chunk_status.py`), duplicate removal (`remove_duplicates.py`),
embedding-log appends (`add_embeddings.py`) and the upload pass
(`upload_embeddings.py`).

Modelling conventions:
* Text is `List Char`; Python strings are modelled over ASCII, so the
  character classes `\s`, `\d`, `[A-Z]` are their ASCII restrictions.
* The per-source regex transformation pipelines of the cleaners (steps 1-8
  of `clean_text`, ending with `.strip()`) are passed as an explicit
  function `tf : List Char → List Char`; the claims under study quantify
  over the behaviour of the transformation, never over its internals.
* Python float thresholds (`0.9`, `0.5`, `0.75`, `0.8`, the 5-percent
  reduction bound) are modelled by exact integer inequalities
  (`10 * cs < 9 * os`, ...); at the concrete inputs appearing below the
  float and rational comparisons agree.
* The filesystem is a map `String → Option (List Char)` from (relative)
  paths to file contents; `none` means the file does not exist.
* External collaborators (embedding model, vector index, metadata store,
  chunk files) are oracles passed as function parameters.
-/

/-- ASCII restriction of Python's `\s` character class. -/
def isPySpace (c : Char) : Bool :=
  c = ' ' || c = '\t' || c = '\n' || c = '\r' || c = '\x0b' || c = '\x0c'

/-- ASCII restriction of Python's `\d` character class. -/
def isPyDigit (c : Char) : Bool :=
  '0' ≤ c && c ≤ '9'

/-- The regex class `[A-Z]`. -/
def isAsciiUpper (c : Char) : Bool :=
  'A' ≤ c && c ≤ 'Z'

/-- Match the tail of the section-header regex `\n\s*\d+\.\s+[A-Z]`
(everything after the leading newline) against a list of characters.
Returns the remainder after the match, or `none` when there is no match
at this position.  Greedy scanning is equivalent to the regex semantics
here because the character classes of adjacent regex atoms are disjoint. -/
def matchSecTail (l : List Char) : Option (List Char) :=
  let l1 := l.dropWhile isPySpace
  if (l1.takeWhile isPyDigit).isEmpty then none
  else
    match l1.dropWhile isPyDigit with
    | '.' :: l3 =>
      if (l3.takeWhile isPySpace).isEmpty then none
      else
        match l3.dropWhile isPySpace with
        | c :: l5 => if isAsciiUpper c then some l5 else none
        | [] => none
    | _ => none

/-- Fuel-indexed scanner counting the non-overlapping matches of
`\n\s*\d+\.\s+[A-Z]`, exactly as `re.findall` counts them: scan left to
right, resume after the end of each match.  The fuel only bounds the
number of scanning steps; `countSections` supplies enough of it. -/
def countSectionsFuel : Nat → List Char → Nat
  | 0, _ => 0
  | _, [] => 0
  | fuel + 1, c :: rest =>
    if c = '\n' then
      match matchSecTail rest with
      | some rem => 1 + countSectionsFuel fuel rem
      | none => countSectionsFuel fuel rest
    else countSectionsFuel fuel rest

/-- `len(re.findall(r'\n\s*\d+\.\s+[A-Z]', text))` from the cleaners'
`_validate_cleaning`. -/
def countSections (l : List Char) : Nat :=
  countSectionsFuel l.length l

/-- One entry of a cleaner's `validation_errors` list.  The numeric
details attached to each entry in the source are reporting-only and are
not modelled. -/
structure VErr where
  file : String
  reason : String
deriving DecidableEq, Repr

/-- `|a - b|` on naturals, as used for the two-sided section tolerances. -/
def natAbsDiff (a b : Nat) : Nat := (a - b) + (b - a)

namespace LegalTextCleaner

/-- `LegalTextCleaner._validate_cleaning` (clean_pakistan_code.py).
Checks, in order: section count (`cleaned < original * 0.9` when
`original > 0`), volume (`cleaned_length < original_length * 0.5`),
and the 100-character floor.  Returns the verdict together with the
updated `validation_errors` list. -/
def validate_cleaning (original cleaned : List Char) (filename : String)
    (errs : List VErr) : Bool × List VErr :=
  let original_sections := countSections original
  let cleaned_sections := countSections cleaned
  if 0 < original_sections ∧ 10 * cleaned_sections < 9 * original_sections then
    (false, errs ++ [⟨filename, "Section count mismatch"⟩])
  else
    let original_length := original.length
    let cleaned_length := cleaned.length
    if 2 * cleaned_length < original_length then
      (false, errs ++ [⟨filename, "Excessive content reduction"⟩])
    else if cleaned_length < 100 then
      (false, errs ++ [⟨filename, "Cleaned text too short"⟩])
    else (true, errs)

/-- `LegalTextCleaner.clean_text`: apply the transformation pipeline
(steps 1-8, passed as `tf`), then validate; on a failed validation the
original text is returned. -/
def clean_text (tf : List Char → List Char) (text : List Char)
    (filename : String) (errs : List VErr) : List Char × List VErr :=
  let cleaned := tf text
  let v := validate_cleaning text cleaned filename errs
  if v.1 then (cleaned, v.2) else (text, v.2)

end LegalTextCleaner

namespace KPCodeCleaner

/-- `KPCodeCleaner._validate_cleaning` (clean_kp_code.py): two-sided
5-percent section tolerance, 75-percent volume threshold,
100-character floor. -/
def validate_cleaning (original cleaned : List Char) (filename : String)
    (errs : List VErr) : Bool × List VErr :=
  let original_sections := countSections original
  let cleaned_sections := countSections cleaned
  if 0 < original_sections ∧
      20 * natAbsDiff original_sections cleaned_sections > original_sections then
    (false, errs ++ [⟨filename, "Section count mismatch"⟩])
  else
    let original_length := original.length
    let cleaned_length := cleaned.length
    if 4 * cleaned_length < 3 * original_length then
      (false, errs ++ [⟨filename, "Excessive content reduction"⟩])
    else if cleaned_length < 100 then
      (false, errs ++ [⟨filename, "Cleaned text too short"⟩])
    else (true, errs)

/-- `KPCodeCleaner.clean_text` with its transformation steps abstracted
as `tf`. -/
def clean_text (tf : List Char → List Char) (text : List Char)
    (filename : String) (errs : List VErr) : List Char × List VErr :=
  let cleaned := tf text
  let v := validate_cleaning text cleaned filename errs
  if v.1 then (cleaned, v.2) else (text, v.2)

end KPCodeCleaner

namespace BalochistanCodeCleaner

/-- `BalochistanCodeCleaner._validate_cleaning` (clean_balochistan_code.py):
two-sided 2-percent section tolerance, 80-percent volume threshold,
100-character floor. -/
def validate_cleaning (original cleaned : List Char) (filename : String)
    (errs : List VErr) : Bool × List VErr :=
  let original_sections := countSections original
  let cleaned_sections := countSections cleaned
  if 0 < original_sections ∧
      50 * natAbsDiff original_sections cleaned_sections > original_sections then
    (false, errs ++ [⟨filename, "Section count mismatch"⟩])
  else
    let original_length := original.length
    let cleaned_length := cleaned.length
    if 5 * cleaned_length < 4 * original_length then
      (false, errs ++ [⟨filename, "Excessive content reduction"⟩])
    else if cleaned_length < 100 then
      (false, errs ++ [⟨filename, "Cleaned text too short"⟩])
    else (true, errs)

/-- `BalochistanCodeCleaner.clean_text` with its transformation steps
abstracted as `tf`. -/
def clean_text (tf : List Char → List Char) (text : List Char)
    (filename : String) (errs : List VErr) : List Char × List VErr :=
  let cleaned := tf text
  let v := validate_cleaning text cleaned filename errs
  if v.1 then (cleaned, v.2) else (text, v.2)

end BalochistanCodeCleaner

/-- ASCII upper-casing of a character list (Python `str.upper` restricted
to ASCII). -/
def upperList (l : List Char) : List Char := l.map Char.toUpper

/-- `pat` occurs as a contiguous sublist of `l` (Python `pat in l`). -/
def isSubstring : List Char → List Char → Bool
  | pat, [] => pat.isEmpty
  | pat, c :: rest => pat.isPrefixOf (c :: rest) || isSubstring pat rest

/-- Case-insensitive containment: `re.search(pat, text, re.IGNORECASE)`
for a literal pattern `pat`. -/
def containsCI (pat text : List Char) : Bool :=
  isSubstring (upperList pat) (upperList text)

namespace SupremeCourtCleaner

/-- The literal case-title patterns of
`SupremeCourtCleaner._validate_cleaning`. -/
def case_patterns : List (List Char) :=
  ["IN THE SUPREME COURT OF PAKISTAN".toList,
   "SUPREME COURT OF PAKISTAN".toList,
   "Civil Petition".toList,
   "Criminal Appeal".toList,
   "Constitutional Petition".toList]

/-- The judgment keywords of `SupremeCourtCleaner._validate_cleaning`. -/
def judgment_keywords : List (List Char) :=
  ["JUDGMENT".toList, "ORDER".toList, "OPINION".toList]

/-- `SupremeCourtCleaner._validate_cleaning`
(clean_supremecourt_judgments.py).  Check 1: reduction must not exceed
5 percent (`(orig - cleaned) / orig * 100 > 5` fails; reduction is `0`
when `orig = 0`).  Check 2: no case-title pattern present in the
original may disappear.  Check 3: no judgment keyword present in the
original may disappear.  There is no minimum-length floor. -/
def validate_cleaning (original cleaned : List Char) (filename : String)
    (errs : List VErr) : Bool × List VErr :=
  let original_len := original.length
  let cleaned_len := cleaned.length
  if 0 < original_len ∧ 20 * (original_len - cleaned_len) > original_len then
    (false, errs ++ [⟨filename, "Excessive reduction"⟩])
  else
    let original_has_case := case_patterns.any fun p => containsCI p original
    let cleaned_has_case := case_patterns.any fun p => containsCI p cleaned
    if original_has_case && !cleaned_has_case then
      (false, errs ++ [⟨filename, "Case title information lost"⟩])
    else
      let original_has_judgment :=
        judgment_keywords.any fun k => isSubstring k (upperList original)
      let cleaned_has_judgment :=
        judgment_keywords.any fun k => isSubstring k (upperList cleaned)
      if original_has_judgment && !cleaned_has_judgment then
        (false, errs ++ [⟨filename, "Judgment/Order section lost"⟩])
      else (true, errs)

/-- `SupremeCourtCleaner.clean_text` with its (whitespace-only)
transformation abstracted as `tf`. -/
def clean_text (tf : List Char → List Char) (text : List Char)
    (filename : String) (errs : List VErr) : List Char × List VErr :=
  let cleaned := tf text
  let v := validate_cleaning text cleaned filename errs
  if v.1 then (cleaned, v.2) else (text, v.2)

end SupremeCourtCleaner

/-! ## Registry data model and filesystem -/

/-- A chunk record, as read from a chunk JSON file (`chunks` entries). -/
structure Chunk where
  chunk_index : Nat := 0
  chunk_type : String := ""
  chunk_title : String := ""
  text : String
deriving DecidableEq, Repr

/-- One document record of `documents_metadata.json`.  Boolean flags model
`processing_status` entries read with `.get(..., False)`; `Option String`
paths model possibly-missing / null JSON fields. -/
structure Doc where
  source_url : String
  source_website : String := ""
  title : Option String := none
  document_type : Option String := none
  year : Option Nat := none
  raw_path : Option String := none
  text_path : Option String := none
  cleaned_path : Option String := none
  chunked_path : Option String := none
  status : String := ""
  text_extracted : Bool := false
  text_cleaned : Bool := false
  chunked : Bool := false
  embedded : Bool := false
deriving DecidableEq, Repr

/-- The registry (`documents_metadata.json`): document records plus
aggregate counters and the `last_updated` timestamp (an opaque string).
`total_cleaned` and `total_chunked` are optional because the
chunk-status stage's behaviour depends on whether these JSON keys are
present (`none` models an absent key); `total_documents` is written
unconditionally wherever it is touched and stays plain. -/
structure Registry where
  documents : List Doc
  total_documents : Nat := 0
  total_cleaned : Option Nat := none
  total_chunked : Option Nat := none
  last_updated : String := ""
deriving DecidableEq, Repr

/-- File contents by path; `none` means the file does not exist. -/
abbrev FileSys : Type := String → Option (List Char)

/-- Write (create or overwrite) a file. -/
def FileSys.write (fs : FileSys) (p : String) (content : List Char) : FileSys :=
  fun q => if q = p then some content else fs q

/-- Python falsiness of an optional path (`not path`): absent or empty. -/
def pathFalsy : Option String → Bool
  | none => true
  | some s => s == ""

/-- The cleaners' and extractor's combined test
`not path or path == 'null'`. -/
def pathFalsyOrNull : Option String → Bool
  | none => true
  | some s => s == "" || s == "null"

/-- The string actually used when a path field is consulted (absent fields
never reach this point on the paths the claims exercise). -/
def pathStr (p : Option String) : String := p.getD ""

/-- The document's text path as a string. -/
def Doc.textPathStr (d : Doc) : String := pathStr d.text_path

/-- The document's cleaned path as a string. -/
def Doc.cleanedPathStr (d : Doc) : String := pathStr d.cleaned_path

/-! ## Stage gates -/

namespace TextExtractor

/-- The needs-(re)extraction decision of `TextExtractor.extract_all`
(extract_text.py, the `needs_extraction` chain): missing/null
`text_path`, then `status != 'text_extracted'`, then the
`processing_status.text_extracted` flag, then existence of the text file
on disk. -/
def needs_extraction (fs : FileSys) (d : Doc) : Bool :=
  if pathFalsyOrNull d.text_path then true
  else if d.status ≠ "text_extracted" then true
  else if !d.text_extracted then true
  else if (fs d.textPathStr).isNone then true
  else false

end TextExtractor

/-- Outcome of the cleaning stage's per-document selection loop. -/
inductive GateDecision where
  | excluded
  | process
  | skip
deriving DecidableEq, Repr

namespace LegalTextCleaner

/-- The per-document selection of
`LegalTextCleaner.process_all_files` (clean_pakistan_code.py):
documents of another source website, without a `text_path`, or whose
text file is missing are dropped from consideration (`excluded`);
otherwise `needs_cleaning` is decided by: missing/null `cleaned_path`,
then the `text_cleaned` flag, then existence of the cleaned file. -/
def cleaning_gate (fs : FileSys) (d : Doc) : GateDecision :=
  if d.source_website ≠ "pakistan-code" then .excluded
  else if pathFalsy d.text_path then .excluded
  else if (fs d.textPathStr).isNone then .excluded
  else if pathFalsyOrNull d.cleaned_path then .process
  else if !d.text_cleaned then .process
  else if (fs d.cleanedPathStr).isNone then .process
  else .skip

end LegalTextCleaner

/-- Modelled from the spec: the §4.1 Stage Gate decision rule, applied in
the stated precedence order — (1) upstream completion flag false forbids
processing except for extraction, (2) absent output path, (3) own
completion flag false, and (4) missing output file each require
processing, (5) otherwise skip.  Used only to compare the spec's rule
with the gates implemented by the code. -/
def spec_gate (isExtraction upstreamFlag ownFlag pathSet fileExists : Bool) : Bool :=
  if !isExtraction && !upstreamFlag then false
  else if !pathSet then true
  else if !ownFlag then true
  else if !fileExists then true
  else false

/-! ## Cleaning stage run (clean_pakistan_code.py, registry level) -/

namespace LegalTextCleaner

/-- The per-document information collected in `cleaned_documents` and
consumed by `_update_metadata` (size statistics are reporting-only and
not modelled). -/
structure CleanInfo where
  source_url : String
  cleaned_path : String
deriving DecidableEq, Repr

/-- `LegalTextCleaner.clean_file`: read the input file, run `clean_text`,
write the (possibly reverted) result to the output path.  In the model
reads of gated files always succeed, so the `success` component is the
happy path of the source's result dictionary. -/
def clean_file (tf : List Char → List Char) (fs : FileSys)
    (input_path output_path : String) (errs : List VErr) :
    FileSys × List VErr × Bool :=
  let original_text := (fs input_path).getD []
  let r := clean_text tf original_text input_path errs
  (fs.write output_path r.1, r.2, true)

/-- The cleaning loop of `process_all_files` over the selected documents:
clean each file in registry order, threading the filesystem and the
`validation_errors` list, and collect one `CleanInfo` per success. -/
def run_files (tf : List Char → List Char) (outPath : String → String) :
    FileSys → List VErr → List Doc → FileSys × List VErr × List CleanInfo
  | fs, errs, [] => (fs, errs, [])
  | fs, errs, d :: rest =>
    let inP := d.textPathStr
    let r := clean_file tf fs inP (outPath inP) errs
    let rec' := run_files tf outPath r.1 r.2.1 rest
    (rec'.1, rec'.2.1, ⟨d.source_url, outPath inP⟩ :: rec'.2.2)

/-- The mutation `_update_metadata` applies to the document matched by
`source_url`: set `cleaned_path`, coarse `status`, and the
`processing_status.text_cleaned` flag. -/
def update_doc (info : CleanInfo) (d : Doc) : Doc :=
  { d with cleaned_path := some info.cleaned_path,
           status := "text_cleaned",
           text_cleaned := true }

/-- Update the first document whose `source_url` matches the cleaning
info (the source's inner loop with `break`). -/
def updateFirst (info : CleanInfo) : List Doc → List Doc
  | [] => []
  | d :: rest =>
    if d.source_url = info.source_url then update_doc info d :: rest
    else d :: updateFirst info rest

/-- Apply all collected cleaning infos to the document list, in order. -/
def apply_infos (infos : List CleanInfo) (docs : List Doc) : List Doc :=
  infos.foldl (fun acc info => updateFirst info acc) docs

/-- `LegalTextCleaner._update_metadata`: no-op on an empty batch;
otherwise update the matched documents, refresh `last_updated`, and
recompute `total_cleaned` from scratch over all records. -/
def update_metadata (infos : List CleanInfo) (time : String)
    (reg : Registry) : Registry :=
  if infos.isEmpty then reg
  else
    let docs' := apply_infos infos reg.documents
    { reg with
      documents := docs',
      last_updated := time,
      total_cleaned := some (docs'.countP (fun d => d.text_cleaned)) }

/-- `LegalTextCleaner.process_all_files`, registry level: select the
documents whose gate decision is `process`; when none need cleaning
return before touching the metadata (the source's early return);
otherwise clean every selected file and run `_update_metadata`. -/
def process_all_files (tf : List Char → List Char) (outPath : String → String)
    (fs : FileSys) (time : String) (reg : Registry) :
    Registry × FileSys × List VErr :=
  let toClean := reg.documents.filter fun d => cleaning_gate fs d = .process
  if toClean.isEmpty then (reg, fs, [])
  else
    let r := run_files tf outPath fs [] toClean
    (update_metadata r.2.2 time reg, r.1, r.2.1)

end LegalTextCleaner

/-! ## Chunk-status stage (update_chunk_status.py) -/

namespace UpdateChunkStatus

/-- `find_chunk_file` composed with `is_valid_chunk_file`: the guessed
chunk path (an oracle `cpo` for `find_chunk_file`) must exist and hold a
non-empty `chunks` list (an oracle `vc` for `is_valid_chunk_file`). -/
def chunk_ok (cpo : String → Option String) (vc : String → Bool)
    (cleaned_path : String) : Bool :=
  match cpo cleaned_path with
  | some f => vc f
  | none => false

/-- The per-document body of `update_chunk_status.main`: documents
without a `cleaned_path` are passed over untouched; a valid chunk file
sets `chunked_path`, `status` and the `chunked` flag; otherwise the
`chunked` flag is forced to false. -/
def step (cpo : String → Option String) (vc : String → Bool) (d : Doc) : Doc :=
  if pathFalsy d.cleaned_path then d
  else if chunk_ok cpo vc d.cleanedPathStr then
    { d with chunked_path := cpo d.cleanedPathStr,
             status := "chunked",
             chunked := true }
  else { d with chunked := false }

/-- `update_chunk_status.main`: update every document, then rebuild the
metadata dict key by key, inserting the loop's fresh `total_valid` as
`total_chunked` right after the `total_cleaned` key.  The rebuild is
faithful to the source's quirk: when a `total_chunked` key already
exists (every run after the first — it was inserted after
`total_cleaned`, so it is iterated later), copying it overwrites the
freshly inserted value with the stale stored one; and when there is no
`total_cleaned` key, the fresh value is never inserted at all.
Finally `last_updated` is unconditionally refreshed and the registry
saved — even when nothing changed. -/
def main (cpo : String → Option String) (vc : String → Bool)
    (time : String) (reg : Registry) : Registry :=
  let total_valid := reg.documents.countP
    (fun d => !pathFalsy d.cleaned_path && chunk_ok cpo vc d.cleanedPathStr)
  { reg with
    documents := reg.documents.map (step cpo vc),
    total_chunked :=
      if reg.total_cleaned.isSome then
        if reg.total_chunked.isSome then reg.total_chunked
        else some total_valid
      else reg.total_chunked,
    last_updated := time }

end UpdateChunkStatus

/-! ## Duplicate removal (remove_duplicates.py) -/

namespace RemoveDuplicates

/-- The dedup loop: keep the first occurrence of every `raw_path`
(`None` raw paths are also deduplicated, as in the source's set). -/
def dedup : List Doc → List (Option String) → List Doc
  | [], _ => []
  | d :: rest, seen =>
    if d.raw_path ∈ seen then dedup rest seen
    else d :: dedup rest (d.raw_path :: seen)

/-- `remove_duplicates_by_raw_path`: drop duplicate records and reset
`total_documents` to the number of remaining records. -/
def remove_duplicates_by_raw_path (reg : Registry) : Registry :=
  let unique_documents := dedup reg.documents []
  { reg with
    documents := unique_documents,
    total_documents := unique_documents.length }

end RemoveDuplicates

/-! ## Embedding log (add_embeddings.py) -/

/-- The denormalized metadata of an embedding record.  Only the fields
the pipeline logic consults (`id` for allocation and upserts, `title`
for the already-embedded check) are modelled; the remaining descriptive
fields never influence control flow. -/
structure EmbMeta where
  id : Nat
  title : Option String := none
deriving DecidableEq, Repr

/-- One embedding record (one line of `embeddings.jsonl`).  `metadata`
is optional because the upload pass reads it with `.get("metadata", {})`. -/
structure EmbRec where
  chunk : String := ""
  embedding : List Int := []
  upload : Bool := false
  metadata : Option EmbMeta := none
deriving DecidableEq, Repr

/-- The embedding log file as a list of lines; `none` is a line that is
not parseable JSON (or lacks the keys a reader requires). -/
abbrev LogFile : Type := List (Option EmbRec)

namespace AddEmbeddings

/-- `get_last_id`: the id of the last record of the log; `0` for a
missing or empty file, and `0` when reading the last line fails. -/
def get_last_id (file : LogFile) : Nat :=
  match file.getLast? with
  | none => 0
  | some none => 0
  | some (some r) =>
    match r.metadata with
    | none => 0
    | some m => m.id

/-- `embeddings_exist_for`: some parseable record's metadata title equals
the document title (both may be absent, and `None == None` holds in the
source). -/
def embeddings_exist_for (doc_title : Option String) (file : LogFile) : Bool :=
  file.any fun line =>
    match line with
    | some r =>
      match r.metadata with
      | some m => m.title = doc_title
      | none => false
    | none => false

/-- The `embedding_text` construction: join the non-empty descriptive
parts and the chunk body with `" | "`. -/
def embedding_text (d : Doc) (c : Chunk) : String :=
  let parts := [pathStr d.document_type, pathStr d.title, c.chunk_type,
    c.chunk_title,
    (match d.year with | some y => "Year " ++ toString y | none => ""),
    c.text]
  String.intercalate " | " (parts.filter (fun s => s ≠ ""))

/-- The record appended for one chunk, with the freshly allocated id. -/
def mkRecord (embedder : String → List Int) (d : Doc) (i : Nat)
    (c : Chunk) : EmbRec :=
  { chunk := c.text,
    embedding := embedder (embedding_text d c),
    upload := false,
    metadata := some { id := i, title := d.title } }

/-- The inner chunk loop: one record per chunk, ids increasing by one. -/
def buildRecs (embedder : String → List Int) (d : Doc) :
    Nat → List Chunk → List EmbRec
  | _, [] => []
  | i, c :: rest => mkRecord embedder d i c :: buildRecs embedder d (i + 1) rest

/-- The per-document body of `add_embeddings.main`.  State: the log file
and the id counter.  The skip condition is the source's
`not chunked or (embedded and has_embeddings)`, evaluated against the
current log; a missing or unreadable chunk file (`chunkStore` returns
`none`) skips the document; otherwise all chunk records are appended,
the flags are set and the registry is saved. -/
def addStep (embedder : String → List Int)
    (chunkStore : String → Option (List Chunk))
    (st : LogFile × Nat) (d : Doc) : (LogFile × Nat) × Doc :=
  if !d.chunked || (d.embedded && embeddings_exist_for d.title st.1) then
    (st, d)
  else
    match chunkStore (pathStr d.chunked_path) with
    | none => (st, d)
    | some chunks =>
      let newRecs := buildRecs embedder d st.2 chunks
      ((st.1 ++ newRecs.map some, st.2 + chunks.length),
       { d with embedded := true, status := "embedded" })

/-- The document loop of `main`, threading the log and the counter. -/
def run_docs (embedder : String → List Int)
    (chunkStore : String → Option (List Chunk)) :
    List Doc → LogFile × Nat → List Doc × (LogFile × Nat)
  | [], st => ([], st)
  | d :: rest, st =>
    let r := addStep embedder chunkStore st d
    let r' := run_docs embedder chunkStore rest r.1
    (r.2 :: r'.1, r'.2)

/-- `add_embeddings.main`: start the id counter at `get_last_id + 1` and
process every document; returns the updated documents and log. -/
def main (embedder : String → List Int)
    (chunkStore : String → Option (List Chunk))
    (docs : List Doc) (file : LogFile) : List Doc × LogFile :=
  let r := run_docs embedder chunkStore docs (file, get_last_id file + 1)
  (r.1, r.2.1)

end AddEmbeddings

/-! ## Upload stage (upload_embeddings.py) -/

namespace UploadEmbeddings

/-- `read_jsonl`: yield the parseable lines, silently skipping the rest. -/
def read_jsonl (file : LogFile) : List EmbRec :=
  file.filterMap id

/-- `rewrite_jsonl_with_flag`: serialize the in-memory records back, one
line each. -/
def rewrite_jsonl_with_flag (records : List EmbRec) : LogFile :=
  records.map some

/-- The per-record body of `upload_embeddings`: skip records already
uploaded, records without a vector, and records without metadata; a
failed vector-index upsert (`qdrantOk` false) skips the record; the
metadata-store upsert (`mongoOk`) is attempted but its failure is only
logged — the local flag is set regardless of its outcome.  The second
component reports whether `uploaded` was incremented. -/
def upload_step (qdrantOk mongoOk : EmbRec → Bool) (rec : EmbRec) :
    EmbRec × Bool :=
  if rec.upload then (rec, false)
  else if rec.embedding.isEmpty then (rec, false)
  else
    match rec.metadata with
    | none => (rec, false)
    | some _ =>
      if qdrantOk rec then
        let _mongo := mongoOk rec
        ({ rec with upload := true }, true)
      else (rec, false)

/-- The record loop of `upload_embeddings` over the in-memory list. -/
def upload_loop (qdrantOk mongoOk : EmbRec → Bool) : List EmbRec → List EmbRec
  | [] => []
  | rec :: rest =>
    (upload_step qdrantOk mongoOk rec).1 :: upload_loop qdrantOk mongoOk rest

/-- `upload_embeddings`: read the log, process every record, rewrite the
whole file with the updated flags. -/
def upload_embeddings (qdrantOk mongoOk : EmbRec → Bool)
    (file : LogFile) : LogFile :=
  rewrite_jsonl_with_flag (upload_loop qdrantOk mongoOk (read_jsonl file))

end UploadEmbeddings

/-! ## Concrete fixtures used by witnesses and counterexamples -/

/-- A synthetic section header block: matches `\n\s*\d+\.\s+[A-Z]` once. -/
def secBlock : List Char := ['\n', '1', '.', ' ', 'A']

/-- A synthetic legal text with ten section markers. -/
def sectionText10 : List Char := List.flatten (List.replicate 10 secBlock)

/-- A transformation that strips five of the ten section markers. -/
def sectionDropTf : List Char → List Char :=
  fun _ => List.flatten (List.replicate 5 secBlock)

/-- A 120-character body that passes every cleaning validation. -/
def plainText120 : List Char := List.replicate 120 'a'

/-- A one-file filesystem holding only the text artifact `t.txt`. -/
def gateFs : FileSys := fun p => if p = "t.txt" then some ['x'] else none

/-- A pakistan-code document whose text artifact exists but whose
upstream `text_extracted` flag is false. -/
def gateDoc : Doc :=
  { source_url := "u1", source_website := "pakistan-code",
    text_path := some "t.txt" }

/-- A pending embedding record: not yet uploaded, with a vector and
metadata. -/
def uploadRec : EmbRec :=
  { chunk := "c", embedding := [1], upload := false,
    metadata := some { id := 1, title := some "T" } }

/-- The id carried by a record's metadata (`0` when absent, matching
`get_last_id`'s exception fallback). -/
def recId (r : EmbRec) : Nat :=
  match r.metadata with
  | some m => m.id
  | none => 0

/-- An existing embedding record with id 1. -/
def logRec1 : EmbRec := { metadata := some { id := 1, title := some "X" } }

/-- A one-record embedding log. -/
def logFile1 : LogFile := [some logRec1]

/-- A chunked, not yet embedded document. -/
def embDoc : Doc :=
  { source_url := "u3", title := some "D", chunked := true,
    chunked_path := some "p" }

/-- A chunk store holding two chunks for `embDoc`. -/
def chunkStore1 : String → Option (List Chunk) :=
  fun p => if p = "p" then some [{ text := "hello" }, { text := "world" }] else none

/-- A stub embedding backend. -/
def embedder1 : String → List Int := fun _ => [0]

/-- A registry containing just the processable `gateDoc`. -/
def regGate : Registry := { documents := [gateDoc] }

/-- A document with a `cleaned_path`. -/
def cleanedDoc : Doc := { source_url := "u5", cleaned_path := some "c" }

/-- A registry containing just `cleanedDoc`. -/
def regCleaned : Registry := { documents := [cleanedDoc] }

/-- A registry as the chunk-status stage first sees it: `total_cleaned`
key present, no `total_chunked` key yet. -/
def regFirstRun : Registry := { documents := [cleanedDoc], total_cleaned := some 0 }

/-- A registry already carrying a (stale) `total_chunked` key from an
earlier run. -/
def regStale : Registry :=
  { documents := [cleanedDoc], total_cleaned := some 0, total_chunked := some 5 }

/-- A chunk-path oracle that finds a chunk file for every cleaned path. -/
def cpoId : String → Option String := fun s => some s

/-- A chunk-file validity oracle that accepts everything. -/
def vcTrue : String → Bool := fun _ => true

/-- A chunk-path oracle that never finds a chunk file. -/
def cpoNone : String → Option String := fun _ => none

/-- A chunk-file validity oracle that rejects everything. -/
def vcFalse : String → Bool := fun _ => false

/-- A fixed output-path derivation for witnesses. -/
def outPathFix : String → String := fun s => "out-" ++ s

/-! # Theorems -/

/-- Helper: when `LegalTextCleaner._validate_cleaning` fails it appends
exactly one entry to the `validation_errors` list. -/
theorem LegalTextCleaner.validate_false_err_pk
    (original cleaned : List Char) (fn : String) (errs : List VErr)
    (h : (validate_cleaning original cleaned fn errs).1 = false) :
    ∃ e, (validate_cleaning original cleaned fn errs).2 = errs ++ [e] := by
  unfold validate_cleaning at h ⊢
  dsimp only at h ⊢
  split_ifs at h ⊢ <;> simp_all

/-- Helper: `LegalTextCleaner.clean_text` returns the untouched original
when validation fails. -/
theorem LegalTextCleaner.clean_text_validate_false_pk
    (tf : List Char → List Char) (text : List Char) (fn : String)
    (errs : List VErr)
    (h : (validate_cleaning text (tf text) fn errs).1 = false) :
    clean_text tf text fn errs = (text, (validate_cleaning text (tf text) fn errs).2) := by
  unfold clean_text
  simp [h]

/-- Helper: same as above for `KPCodeCleaner`. -/
theorem KPCodeCleaner.validate_false_err_kp
    (original cleaned : List Char) (fn : String) (errs : List VErr)
    (h : (validate_cleaning original cleaned fn errs).1 = false) :
    ∃ e, (validate_cleaning original cleaned fn errs).2 = errs ++ [e] := by
  unfold validate_cleaning at h ⊢
  dsimp only at h ⊢
  split_ifs at h ⊢ <;> simp_all

/-- Helper: same as above for `BalochistanCodeCleaner`. -/
theorem BalochistanCodeCleaner.validate_false_err_baloch
    (original cleaned : List Char) (fn : String) (errs : List VErr)
    (h : (validate_cleaning original cleaned fn errs).1 = false) :
    ∃ e, (validate_cleaning original cleaned fn errs).2 = errs ++ [e] := by
  unfold validate_cleaning at h ⊢
  dsimp only at h ⊢
  split_ifs at h ⊢ <;> simp_all

/-- Helper: same as above for `SupremeCourtCleaner`. -/
theorem SupremeCourtCleaner.validate_false_err_sc
    (original cleaned : List Char) (fn : String) (errs : List VErr)
    (h : (validate_cleaning original cleaned fn errs).1 = false) :
    ∃ e, (validate_cleaning original cleaned fn errs).2 = errs ++ [e] := by
  unfold validate_cleaning at h ⊢
  dsimp only at h ⊢
  split_ifs at h ⊢ <;> simp_all

/-- Helper: `KPCodeCleaner.clean_text` on failed validation. -/
theorem KPCodeCleaner.clean_text_validate_false_kp
    (tf : List Char → List Char) (text : List Char) (fn : String)
    (errs : List VErr)
    (h : (validate_cleaning text (tf text) fn errs).1 = false) :
    clean_text tf text fn errs = (text, (validate_cleaning text (tf text) fn errs).2) := by
  unfold clean_text
  simp [h]

/-- Helper: `BalochistanCodeCleaner.clean_text` on failed validation. -/
theorem BalochistanCodeCleaner.clean_text_validate_false_baloch
    (tf : List Char → List Char) (text : List Char) (fn : String)
    (errs : List VErr)
    (h : (validate_cleaning text (tf text) fn errs).1 = false) :
    clean_text tf text fn errs = (text, (validate_cleaning text (tf text) fn errs).2) := by
  unfold clean_text
  simp [h]

/-- Helper: `SupremeCourtCleaner.clean_text` on failed validation. -/
theorem SupremeCourtCleaner.clean_text_validate_false_sc
    (tf : List Char → List Char) (text : List Char) (fn : String)
    (errs : List VErr)
    (h : (validate_cleaning text (tf text) fn errs).1 = false) :
    clean_text tf text fn errs = (text, (validate_cleaning text (tf text) fn errs).2) := by
  unfold clean_text
  simp [h]

/-- C1: for every input text and every source profile, when the
post-transform validation fails, `clean_text` returns the original text
unchanged (character for character) and appends exactly one rejection
entry to the validation-error record; in particular, for the
pakistan-code profile, any transformation that drops the line-start
numeric section markers below 90 percent of their original count yields
the untouched original together with a `Section count mismatch` entry. -/
theorem clean_rejects_wholesale :
    (∀ tf text fn errs,
      (LegalTextCleaner.validate_cleaning text (tf text) fn errs).1 = false →
      ∃ e, LegalTextCleaner.clean_text tf text fn errs = (text, errs ++ [e])) ∧
    (∀ tf text fn errs,
      (KPCodeCleaner.validate_cleaning text (tf text) fn errs).1 = false →
      ∃ e, KPCodeCleaner.clean_text tf text fn errs = (text, errs ++ [e])) ∧
    (∀ tf text fn errs,
      (BalochistanCodeCleaner.validate_cleaning text (tf text) fn errs).1 = false →
      ∃ e, BalochistanCodeCleaner.clean_text tf text fn errs = (text, errs ++ [e])) ∧
    (∀ tf text fn errs,
      (SupremeCourtCleaner.validate_cleaning text (tf text) fn errs).1 = false →
      ∃ e, SupremeCourtCleaner.clean_text tf text fn errs = (text, errs ++ [e])) ∧
    (∀ tf text fn errs, 0 < countSections text →
      10 * countSections (tf text) < 9 * countSections text →
      LegalTextCleaner.clean_text tf text fn errs =
        (text, errs ++ [⟨fn, "Section count mismatch"⟩])) := by
  refine ⟨?_, ?_, ?_, ?_, ?_⟩
  · intro tf text fn errs h
    obtain ⟨e, he⟩ := LegalTextCleaner.validate_false_err_pk text (tf text) fn errs h
    exact ⟨e, by rw [LegalTextCleaner.clean_text_validate_false_pk tf text fn errs h, he]⟩
  · intro tf text fn errs h
    obtain ⟨e, he⟩ := KPCodeCleaner.validate_false_err_kp text (tf text) fn errs h
    exact ⟨e, by rw [KPCodeCleaner.clean_text_validate_false_kp tf text fn errs h, he]⟩
  · intro tf text fn errs h
    obtain ⟨e, he⟩ := BalochistanCodeCleaner.validate_false_err_baloch text (tf text) fn errs h
    exact ⟨e, by rw [BalochistanCodeCleaner.clean_text_validate_false_baloch tf text fn errs h, he]⟩
  · intro tf text fn errs h
    obtain ⟨e, he⟩ := SupremeCourtCleaner.validate_false_err_sc text (tf text) fn errs h
    exact ⟨e, by rw [SupremeCourtCleaner.clean_text_validate_false_sc tf text fn errs h, he]⟩
  · intro tf text fn errs h1 h2
    have hv : LegalTextCleaner.validate_cleaning text (tf text) fn errs =
        (false, errs ++ [⟨fn, "Section count mismatch"⟩]) := by
      unfold LegalTextCleaner.validate_cleaning
      rw [if_pos ⟨h1, h2⟩]
    rw [LegalTextCleaner.clean_text_validate_false_pk tf text fn errs (by rw [hv]), hv]

/-- Witness for C1: the spec's own example — a synthetic text with ten
section markers fed through a transform that strips five of them comes
back untouched, with the rejection recorded. -/
theorem clean_rejects_wholesale_witness :
    LegalTextCleaner.clean_text sectionDropTf sectionText10 "doc.txt" [] =
      (sectionText10, [⟨"doc.txt", "Section count mismatch"⟩]) :=
  clean_rejects_wholesale.2.2.2.2 sectionDropTf sectionText10 "doc.txt" []
    (by decide) (by decide)

/-- Counterexample for C8: the supremecourt profile's validation accepts
a degenerate empty document — its volume signal enforces no absolute
minimum character floor (the other three profiles reject anything below
100 characters). -/
theorem volume_floor_cex :
    (SupremeCourtCleaner.validate_cleaning [] [] "doc.txt" []).1 = true ∧
    ([] : List Char).length < 100 := by
  decide

/-- C8 (amended): the pakistan-code, kp-code and balochistan-code
profiles' volume signals require both the source-specific fraction of
the original length (1/2, 3/4 and 4/5 respectively) and the absolute
100-character floor; the supremecourt profile's volume signal only
bounds the reduction by 5 percent of the original length, with no
absolute floor. -/
theorem volume_checks_amended :
    (∀ (original cleaned : List Char) (fn : String) (errs : List VErr),
      (LegalTextCleaner.validate_cleaning original cleaned fn errs).1 = true →
      original.length ≤ 2 * cleaned.length ∧ 100 ≤ cleaned.length) ∧
    (∀ (original cleaned : List Char) (fn : String) (errs : List VErr),
      (KPCodeCleaner.validate_cleaning original cleaned fn errs).1 = true →
      3 * original.length ≤ 4 * cleaned.length ∧ 100 ≤ cleaned.length) ∧
    (∀ (original cleaned : List Char) (fn : String) (errs : List VErr),
      (BalochistanCodeCleaner.validate_cleaning original cleaned fn errs).1 = true →
      4 * original.length ≤ 5 * cleaned.length ∧ 100 ≤ cleaned.length) ∧
    (∀ (original cleaned : List Char) (fn : String) (errs : List VErr),
      (SupremeCourtCleaner.validate_cleaning original cleaned fn errs).1 = true →
      20 * (original.length - cleaned.length) ≤ original.length) := by
  refine ⟨?_, ?_, ?_, ?_⟩ <;> intro original cleaned fn errs h
  · unfold LegalTextCleaner.validate_cleaning at h
    dsimp only at h
    split_ifs at h with h1 h2 h3 <;> first | exact absurd h Bool.false_ne_true | omega
  · unfold KPCodeCleaner.validate_cleaning at h
    dsimp only at h
    split_ifs at h with h1 h2 h3 <;> first | exact absurd h Bool.false_ne_true | omega
  · unfold BalochistanCodeCleaner.validate_cleaning at h
    dsimp only at h
    split_ifs at h with h1 h2 h3 <;> first | exact absurd h Bool.false_ne_true | omega
  · unfold SupremeCourtCleaner.validate_cleaning at h
    dsimp only at h
    split_ifs at h with h1 h2 h3 <;> first | exact absurd h Bool.false_ne_true | omega

set_option maxRecDepth 20000 in
/-- Witness for C8: a 120-character document passes all four validators,
and the amended bounds hold for it. -/
theorem volume_checks_amended_witness :
    (plainText120.length ≤ 2 * plainText120.length ∧ 100 ≤ plainText120.length) ∧
    (3 * plainText120.length ≤ 4 * plainText120.length ∧ 100 ≤ plainText120.length) ∧
    (4 * plainText120.length ≤ 5 * plainText120.length ∧ 100 ≤ plainText120.length) ∧
    20 * (plainText120.length - plainText120.length) ≤ plainText120.length :=
  ⟨volume_checks_amended.1 plainText120 plainText120 "doc.txt" [] (by decide),
   volume_checks_amended.2.1 plainText120 plainText120 "doc.txt" [] (by decide),
   volume_checks_amended.2.2.1 plainText120 plainText120 "doc.txt" [] (by decide),
   volume_checks_amended.2.2.2 plainText120 plainText120 "doc.txt" [] (by decide)⟩

/-- Counterexample for C2: a document whose upstream `text_extracted`
flag is false but whose text artifact exists on disk.  The spec's §4.1
gate forbids processing (rule 1); the cleaning stage's implemented gate
selects the document for processing, because it checks the presence of
the text artifact instead of the upstream completion flag. -/
theorem stage_gate_cex :
    LegalTextCleaner.cleaning_gate gateFs gateDoc = .process ∧
    gateDoc.text_extracted = false ∧
    spec_gate false gateDoc.text_extracted gateDoc.text_cleaned
      (!pathFalsyOrNull gateDoc.cleaned_path)
      (gateFs gateDoc.cleanedPathStr).isSome = false := by
  decide

/-- C2 (amended): the gates follow the §4.1 precedence only partially.
The extraction gate requires processing exactly when the `text_path` is
absent/null, or the coarse `status` label differs from
`text_extracted` (an extra condition not in §4.1), or the
`text_extracted` flag is false, or the text file is missing.  The
cleaning gate selects a document exactly when its upstream *artifact*
check passes (right website, `text_path` set, text file on disk — the
upstream completion flag is never consulted) and the cleaned path is
absent/null, or the `text_cleaned` flag is false, or the cleaned file
is missing. -/
theorem stage_gate_amended :
    (∀ (fs : FileSys) (d : Doc),
      TextExtractor.needs_extraction fs d =
        (pathFalsyOrNull d.text_path || !(d.status == "text_extracted") ||
         !d.text_extracted || !(fs d.textPathStr).isSome)) ∧
    (∀ (fs : FileSys) (d : Doc),
      decide (LegalTextCleaner.cleaning_gate fs d = .process) =
        ((d.source_website == "pakistan-code") && !pathFalsy d.text_path &&
         (fs d.textPathStr).isSome &&
         (pathFalsyOrNull d.cleaned_path || !d.text_cleaned ||
          !(fs d.cleanedPathStr).isSome))) := by
  constructor <;> intro fs d
  · unfold TextExtractor.needs_extraction
    split_ifs <;> simp_all [beq_iff_eq, Option.isSome_iff_ne_none]
  · unfold LegalTextCleaner.cleaning_gate
    split_ifs <;> simp_all [beq_iff_eq, Option.isSome_iff_ne_none]

/-- C5: the embedding stage's skip logic
(`not chunked or (embedded and has_embeddings)`) selects a document
exactly when its `chunked` flag is true and (its `embedded` flag is
false or no log record carries its title); a document failing this
condition is passed over with the log, the id counter and the record
itself untouched. -/
theorem embedding_eligibility :
    (∀ (file : LogFile) (d : Doc),
      (!d.chunked || (d.embedded && AddEmbeddings.embeddings_exist_for d.title file)) =
        !(d.chunked && (!d.embedded || !AddEmbeddings.embeddings_exist_for d.title file))) ∧
    (∀ (embedder : String → List Int) (chunkStore : String → Option (List Chunk))
       (file : LogFile) (ctr : Nat) (d : Doc),
      (!d.chunked || (d.embedded && AddEmbeddings.embeddings_exist_for d.title file)) = true →
      AddEmbeddings.addStep embedder chunkStore (file, ctr) d = ((file, ctr), d)) := by
  constructor
  · intro file d
    cases hc : d.chunked <;> cases he : d.embedded <;>
      cases hx : AddEmbeddings.embeddings_exist_for d.title file <;> rfl
  · intro embedder chunkStore file ctr d h
    unfold AddEmbeddings.addStep
    simp [h]

/-- Witness for C5: a document whose `chunked` flag is false is skipped
without any state change. -/
theorem embedding_eligibility_witness :
    AddEmbeddings.addStep (fun _ => [0]) (fun _ => none) ([], 5) gateDoc =
      (([], 5), gateDoc) :=
  embedding_eligibility.2 (fun _ => [0]) (fun _ => none) [] 5 gateDoc (by decide)

/-- Helper: the upload loop preserves the number of records. -/
theorem upload_loop_length (qdrantOk mongoOk : EmbRec → Bool) (recs : List EmbRec) :
    (UploadEmbeddings.upload_loop qdrantOk mongoOk recs).length = recs.length := by
  induction recs with
  | nil => rfl
  | cons r rest ih => simp [UploadEmbeddings.upload_loop, ih]

/-- Counterexample for C4: for a pending record with a vector and
metadata, a successful vector-index upsert followed by a *failed*
metadata-store upsert still flips the local `upload` flag to true — the
flag is not conditioned on the metadata-store write succeeding. -/
theorem upload_flag_cex :
    (UploadEmbeddings.upload_step (fun _ => true) (fun _ => false) uploadRec).1.upload = true ∧
    uploadRec.upload = false ∧
    (fun (_ : EmbRec) => false) uploadRec = false := by
  decide

/-- C4 (amended): the upload stage sets `upload = true` for a pending,
well-formed record exactly when the vector-index upsert succeeds,
regardless of the metadata-store outcome (a metadata-store failure is
only logged); a failed vector-index upsert leaves the record unchanged;
and the pass processes every record of the batch independently of the
others' outcomes. -/
theorem upload_flag_amended :
    (∀ (qdrantOk mongoOk : EmbRec → Bool) (rec : EmbRec),
      (UploadEmbeddings.upload_step qdrantOk mongoOk rec).1.upload =
        (rec.upload || (!rec.embedding.isEmpty && rec.metadata.isSome && qdrantOk rec))) ∧
    (∀ (qdrantOk mongoOk : EmbRec → Bool) (rec : EmbRec),
      qdrantOk rec = false → (UploadEmbeddings.upload_step qdrantOk mongoOk rec).1 = rec) ∧
    (∀ (qdrantOk mongoOk : EmbRec → Bool) (recs : List EmbRec),
      (UploadEmbeddings.upload_loop qdrantOk mongoOk recs).length = recs.length) ∧
    (∀ (qdrantOk mongoOk : EmbRec → Bool) (recs : List EmbRec) (i : Nat),
      (UploadEmbeddings.upload_loop qdrantOk mongoOk recs)[i]? =
        recs[i]?.map (fun r => (UploadEmbeddings.upload_step qdrantOk mongoOk r).1)) := by
  refine ⟨?_, ?_, ?_, ?_⟩
  · intro qdrantOk mongoOk rec
    rcases hm : rec.metadata with _ | m <;> cases hu : rec.upload <;>
      cases he : rec.embedding.isEmpty <;> cases hq : qdrantOk rec <;>
      simp [UploadEmbeddings.upload_step, hm, hu, he, hq]
  · intro qdrantOk mongoOk rec hq
    rcases hm : rec.metadata with _ | m <;> cases hu : rec.upload <;>
      cases he : rec.embedding.isEmpty <;>
      simp [UploadEmbeddings.upload_step, hm, hu, he, hq]
  · intro qdrantOk mongoOk recs
    exact upload_loop_length qdrantOk mongoOk recs
  · intro qdrantOk mongoOk recs i
    induction recs generalizing i with
    | nil => simp [UploadEmbeddings.upload_loop]
    | cons r rest ih =>
      cases i with
      | zero => simp [UploadEmbeddings.upload_loop]
      | succ j => simpa [UploadEmbeddings.upload_loop] using ih j

/-- Witness for C4 (amended): a record whose vector-index upsert fails
is left unchanged. -/
theorem upload_flag_amended_witness :
    (UploadEmbeddings.upload_step (fun _ => false) (fun _ => true) uploadRec).1 = uploadRec :=
  upload_flag_amended.2.1 (fun _ => false) (fun _ => true) uploadRec (by decide)

/-- Helper: the length of `filterMap id` counts the parseable lines. -/
theorem filterMap_id_length {α : Type} (l : List (Option α)) :
    (l.filterMap id).length = l.countP (fun o => o.isSome) := by
  induction l with
  | nil => rfl
  | cons a t ih => cases a <;> simp [ih, List.countP_cons]

/-- Helper: parseable and unparsable lines partition the log. -/
theorem countP_isSome_add_isNone {α : Type} (l : List (Option α)) :
    l.countP (fun o => o.isSome) + l.countP (fun o => o.isNone) = l.length := by
  induction l with
  | nil => rfl
  | cons a t ih => cases a <;> simp [List.countP_cons] <;> omega

/-- C9: a single upload pass permanently deletes every unparsable line
of the embedding log: the rewritten file consists exactly of the
parseable records with their updated flags (its length is the input
length minus the unparsable lines, and every remaining line parses). -/
theorem upload_log_drops_unparsable :
    ∀ (qdrantOk mongoOk : EmbRec → Bool) (file : LogFile),
      (UploadEmbeddings.upload_embeddings qdrantOk mongoOk file).all
        (fun l => l.isSome) = true ∧
      (UploadEmbeddings.upload_embeddings qdrantOk mongoOk file).length +
        file.countP (fun l => l.isNone) = file.length ∧
      UploadEmbeddings.read_jsonl (UploadEmbeddings.upload_embeddings qdrantOk mongoOk file) =
        UploadEmbeddings.upload_loop qdrantOk mongoOk (UploadEmbeddings.read_jsonl file) := by
  intro qdrantOk mongoOk file
  refine ⟨?_, ?_, ?_⟩
  · simp [UploadEmbeddings.upload_embeddings, UploadEmbeddings.rewrite_jsonl_with_flag,
      List.all_eq_true]
  · have h1 : (UploadEmbeddings.upload_embeddings qdrantOk mongoOk file).length =
        (UploadEmbeddings.read_jsonl file).length := by
      simp [UploadEmbeddings.upload_embeddings, UploadEmbeddings.rewrite_jsonl_with_flag,
        upload_loop_length]
    rw [h1]
    rw [show (UploadEmbeddings.read_jsonl file).length =
        file.countP (fun o => o.isSome) from filterMap_id_length file]
    exact countP_isSome_add_isNone file
  · simp [UploadEmbeddings.upload_embeddings, UploadEmbeddings.read_jsonl,
      UploadEmbeddings.rewrite_jsonl_with_flag, List.filterMap_map]

/-- Helper: consecutive ranges concatenate. -/
theorem range1_append : ∀ s m n : Nat,
    List.range' s m ++ List.range' (s + m) n = List.range' s (m + n) := by
  intro s m
  induction m generalizing s with
  | zero => simp
  | succ k ih =>
    intro n
    simp only [List.range'_succ, List.cons_append]
    rw [show s + (k + 1) = (s + 1) + k by omega]
    rw [ih (s + 1) n]
    rw [show k + 1 + n = (k + n) + 1 by omega, List.range'_succ]

/-- Helper: the ids of the records built for one document's chunks are
consecutive, starting at the current counter. -/
theorem buildRecs_map_recId (embedder : String → List Int) (d : Doc) :
    ∀ (i : Nat) (l : List Chunk),
      (AddEmbeddings.buildRecs embedder d i l).map recId = List.range' i l.length := by
  intro i l
  induction l generalizing i with
  | nil => rfl
  | cons c rest ih =>
    simp [AddEmbeddings.buildRecs, AddEmbeddings.mkRecord, recId, List.range'_succ, ih]

/-- Helper: the document loop only appends, and the appended records
carry the consecutive ids starting at the incoming counter. -/
theorem run_docs_ids (embedder : String → List Int)
    (chunkStore : String → Option (List Chunk)) :
    ∀ (docs : List Doc) (file : LogFile) (ctr : Nat),
      ∃ new : List EmbRec,
        (AddEmbeddings.run_docs embedder chunkStore docs (file, ctr)).2.1 =
          file ++ new.map some ∧
        new.map recId = List.range' ctr new.length ∧
        (AddEmbeddings.run_docs embedder chunkStore docs (file, ctr)).2.2 =
          ctr + new.length := by
  intro docs
  induction docs with
  | nil => intro file ctr; exact ⟨[], by simp [AddEmbeddings.run_docs]⟩
  | cons d rest ih =>
    intro file ctr
    by_cases hg : (!d.chunked || (d.embedded &&
        AddEmbeddings.embeddings_exist_for d.title file)) = true
    · obtain ⟨new, h1, h2, h3⟩ := ih file ctr
      refine ⟨new, ?_, h2, ?_⟩ <;>
        simp [AddEmbeddings.run_docs, AddEmbeddings.addStep, hg, h1, h3]
    · rcases hcs : chunkStore (pathStr d.chunked_path) with _ | chunks
      · obtain ⟨new, h1, h2, h3⟩ := ih file ctr
        refine ⟨new, ?_, h2, ?_⟩ <;>
          simp [AddEmbeddings.run_docs, AddEmbeddings.addStep, hg, hcs, h1, h3]
      · obtain ⟨new, h1, h2, h3⟩ :=
          ih (file ++ (AddEmbeddings.buildRecs embedder d ctr chunks).map some)
            (ctr + chunks.length)
        refine ⟨AddEmbeddings.buildRecs embedder d ctr chunks ++ new, ?_, ?_, ?_⟩
        · simp [AddEmbeddings.run_docs, AddEmbeddings.addStep, hg, hcs, h1]
        · rw [List.map_append, buildRecs_map_recId, h2]
          have hlen : (AddEmbeddings.buildRecs embedder d ctr chunks).length =
              chunks.length := by
            have := buildRecs_map_recId embedder d ctr chunks
            calc (AddEmbeddings.buildRecs embedder d ctr chunks).length
                = ((AddEmbeddings.buildRecs embedder d ctr chunks).map recId).length := by
                  simp
              _ = chunks.length := by rw [this]; simp
          rw [List.length_append, hlen]
          exact range1_append ctr chunks.length new.length
        · have hlen : (AddEmbeddings.buildRecs embedder d ctr chunks).length =
              chunks.length := by
            have := buildRecs_map_recId embedder d ctr chunks
            calc (AddEmbeddings.buildRecs embedder d ctr chunks).length
                = ((AddEmbeddings.buildRecs embedder d ctr chunks).map recId).length := by
                  simp
              _ = chunks.length := by rw [this]; simp
          simp [AddEmbeddings.run_docs, AddEmbeddings.addStep, hg, hcs, h3, hlen]
          omega

/-- Helper: on a fully-parseable log whose ids are `1, …, M` in order,
`get_last_id` returns `M`. -/
theorem get_last_id_eq (recs : List EmbRec) (M : Nat)
    (hids : recs.map recId = List.range' 1 M) :
    AddEmbeddings.get_last_id (recs.map some) = M := by
  rcases List.eq_nil_or_concat recs with hnil | ⟨l', a, hcat⟩
  · subst hnil
    have hM : M = 0 := by
      have := congrArg List.length hids
      simpa using this.symm
    simp [AddEmbeddings.get_last_id, hM]
  · subst hcat
    rw [List.concat_eq_append] at hids ⊢
    have hM : M = l'.length + 1 := by
      have := congrArg List.length hids
      simpa using this.symm
    subst hM
    have hsplit : List.range' 1 (l'.length + 1) =
        List.range' 1 l'.length ++ [1 + l'.length] := by
      rw [← range1_append 1 l'.length 1]
      simp [List.range'_one]
    rw [hsplit, List.map_append] at hids
    have hlast : recId a = 1 + l'.length := by
      have hlen : (l'.map recId).length = (List.range' 1 l'.length).length := by
        simp
      have := (List.append_inj hids hlen).2
      simpa using this
    have hgl : AddEmbeddings.get_last_id ((l' ++ [a]).map some) = recId a := by
      rw [List.map_append]
      unfold AddEmbeddings.get_last_id
      rw [show List.map some [a] = [some a] from rfl, List.getLast?_concat]
      cases h : a.metadata <;> simp [recId, h]
    rw [hgl, hlast]
    omega

/-- C3: on an embedding log consisting of `M` parseable records with ids
`1, …, M` in order, a run of the embedding stage only appends: the `N`
new records receive ids `M+1, …, M+N` in order, with no gaps and no
repeats, and the whole log again carries the ids `1, …, M+N` — so no id
assigned by an earlier run is ever reused by a later one. -/
theorem embedding_id_allocation :
    ∀ (embedder : String → List Int) (chunkStore : String → Option (List Chunk))
      (docs : List Doc) (file : LogFile) (recs : List EmbRec) (M : Nat),
      file = recs.map some →
      recs.map recId = List.range' 1 M →
      ∃ new : List EmbRec,
        (AddEmbeddings.main embedder chunkStore docs file).2 = file ++ new.map some ∧
        new.map recId = List.range' (M + 1) new.length ∧
        (recs ++ new).map recId = List.range' 1 (M + new.length) := by
  intro embedder chunkStore docs file recs M hfile hids
  have hlast : AddEmbeddings.get_last_id file = M := by
    rw [hfile]; exact get_last_id_eq recs M hids
  obtain ⟨new, h1, h2, h3⟩ := run_docs_ids embedder chunkStore docs file (M + 1)
  refine ⟨new, ?_, ?_, ?_⟩
  · unfold AddEmbeddings.main
    rw [hlast]
    exact h1
  · exact h2
  · rw [List.map_append, hids, h2]
    rw [show M + 1 = 1 + M by omega]
    exact range1_append 1 M new.length

/-- Witness for C3: appending after a one-record log with id 1 yields
the new ids `2, …` and the full log ids `1, …, 1+N`. -/
theorem embedding_id_allocation_witness :
    ∃ new : List EmbRec,
      (AddEmbeddings.main embedder1 chunkStore1 [embDoc] logFile1).2 =
        logFile1 ++ new.map some ∧
      new.map recId = List.range' 2 new.length ∧
      ([logRec1] ++ new).map recId = List.range' 1 (1 + new.length) :=
  embedding_id_allocation embedder1 chunkStore1 [embDoc] logFile1 [logRec1] 1
    rfl (by decide)

/-- Helper: the cleaning loop produces exactly one cleaning info per
selected document, in order. -/
theorem run_files_infos (tf : List Char → List Char) (outPath : String → String) :
    ∀ (l : List Doc) (fs : FileSys) (errs : List VErr),
      (LegalTextCleaner.run_files tf outPath fs errs l).2.2 =
        l.map (fun d => ⟨d.source_url, outPath d.textPathStr⟩) := by
  intro l
  induction l with
  | nil => intro fs errs; rfl
  | cons d rest ih => intro fs errs; simp [LegalTextCleaner.run_files, ih]

/-- Counterexample for C7: a registry that already carries a stale
`total_chunked = 5` from an earlier run.  The chunk-status stage's save
validates one document (its flag ends up true), yet the dict-rebuild
loop overwrites the freshly computed count with the stale stored value:
the stored aggregate (5) does not equal the count recomputed from
scratch over the records (1). -/
theorem counter_consistency_cex :
    (UpdateChunkStatus.main cpoId vcTrue "t1" regStale).total_chunked = some 5 ∧
    (UpdateChunkStatus.main cpoId vcTrue "t1" regStale).documents.countP
      (fun d => d.chunked) = 1 := by
  decide

/-- C7 (amended): the cleaning stage's save recomputes `total_cleaned`
from scratch over all records, and `remove_duplicates` recomputes
`total_documents` as the number of remaining records.  The chunk-status
stage computes a fresh count but *stores* it only on a first run (a
registry with a `total_cleaned` key and no pre-existing `total_chunked`
key), where it equals the count of records with `chunked = true`
whenever every record carries a `cleaned_path`; on every later run the
dict-rebuild loop overwrites the fresh value with the stale stored one,
so `total_chunked` is never updated again. -/
theorem counter_recomputation_amended :
    (∀ (tf : List Char → List Char) (outPath : String → String) (fs : FileSys)
       (time : String) (reg : Registry),
      (reg.documents.filter fun d => LegalTextCleaner.cleaning_gate fs d = .process) ≠ [] →
      (LegalTextCleaner.process_all_files tf outPath fs time reg).1.total_cleaned =
        some ((LegalTextCleaner.process_all_files tf outPath fs time reg).1.documents.countP
          (fun d => d.text_cleaned))) ∧
    (∀ (cpo : String → Option String) (vc : String → Bool) (time : String)
       (reg : Registry),
      reg.total_cleaned.isSome = true →
      reg.total_chunked = none →
      (∀ d ∈ reg.documents, pathFalsy d.cleaned_path = false) →
      (UpdateChunkStatus.main cpo vc time reg).total_chunked =
        some ((UpdateChunkStatus.main cpo vc time reg).documents.countP
          (fun d => d.chunked))) ∧
    (∀ (cpo : String → Option String) (vc : String → Bool) (time : String)
       (reg : Registry),
      reg.total_chunked.isSome = true →
      (UpdateChunkStatus.main cpo vc time reg).total_chunked = reg.total_chunked) ∧
    (∀ reg : Registry,
      (RemoveDuplicates.remove_duplicates_by_raw_path reg).total_documents =
        (RemoveDuplicates.remove_duplicates_by_raw_path reg).documents.length) := by
  refine ⟨?_, ?_, ?_, ?_⟩
  · intro tf outPath fs time reg hne
    unfold LegalTextCleaner.process_all_files
    rw [if_neg (by simpa [List.isEmpty_iff] using hne)]
    unfold LegalTextCleaner.update_metadata
    dsimp only
    rw [run_files_infos]
    rw [if_neg (by simpa [List.isEmpty_iff, List.map_eq_nil_iff] using hne)]
  · intro cpo vc time reg hck hnk hpaths
    unfold UpdateChunkStatus.main
    dsimp only
    rw [if_pos hck, hnk]
    simp only [Option.isSome_none, Bool.false_eq_true, if_false, Option.some.injEq,
      List.countP_map]
    apply List.countP_congr
    intro d hd
    have hp := hpaths d hd
    cases hok : UpdateChunkStatus.chunk_ok cpo vc d.cleanedPathStr <;>
      simp [UpdateChunkStatus.step, hp, hok]
  · intro cpo vc time reg hstale
    unfold UpdateChunkStatus.main
    dsimp only
    by_cases hck : reg.total_cleaned.isSome = true
    · rw [if_pos hck, if_pos hstale]
    · rw [if_neg hck]
  · intro reg
    rfl

/-- Witness for C7 (amended): concrete runs satisfy the recomputation
properties — a first chunk-status run stores the fresh count, a later
run keeps the stale stored value. -/
theorem counter_recomputation_amended_witness :
    ((LegalTextCleaner.process_all_files id outPathFix gateFs "t1" regGate).1.total_cleaned =
      some ((LegalTextCleaner.process_all_files id outPathFix gateFs "t1" regGate).1.documents.countP
        (fun d => d.text_cleaned))) ∧
    ((UpdateChunkStatus.main cpoNone vcFalse "t1" regFirstRun).total_chunked =
      some ((UpdateChunkStatus.main cpoNone vcFalse "t1" regFirstRun).documents.countP
        (fun d => d.chunked))) ∧
    ((UpdateChunkStatus.main cpoId vcTrue "t1" regStale).total_chunked =
      regStale.total_chunked) ∧
    ((RemoveDuplicates.remove_duplicates_by_raw_path regGate).total_documents =
      (RemoveDuplicates.remove_duplicates_by_raw_path regGate).documents.length) :=
  ⟨counter_recomputation_amended.1 id outPathFix gateFs "t1" regGate (by decide),
   counter_recomputation_amended.2.1 cpoNone vcFalse "t1" regFirstRun
     (by decide) rfl
     (by intro d hd; rw [show regFirstRun.documents = [cleanedDoc] from rfl,
           List.mem_singleton] at hd; subst hd; decide),
   counter_recomputation_amended.2.2.1 cpoId vcTrue "t1" regStale (by decide),
   counter_recomputation_amended.2.2.2 regGate⟩

/-- C10: a document whose cleaning transformation is vetoed by
validation is nonetheless written to the cleaned artifact path with its
*original* content, reported as a success, marked
`text_cleaned = true` with `status = 'text_cleaned'` and
`cleaned_path` set (hence counted by the recomputed `total_cleaned`),
and the cleaning gate thereafter classifies it as complete, so later
cleaning runs never re-attempt it. -/
theorem veto_still_marks_cleaned :
    ∀ (tf : List Char → List Char) (fs : FileSys) (d : Doc)
      (content : List Char) (outP : String) (errs : List VErr) (time : String),
      fs d.textPathStr = some content →
      (LegalTextCleaner.validate_cleaning content (tf content)
        d.textPathStr errs).1 = false →
      d.source_website = "pakistan-code" →
      pathFalsy d.text_path = false →
      outP ≠ "" → outP ≠ "null" →
      ((LegalTextCleaner.clean_file tf fs d.textPathStr outP errs).1 outP =
          some content ∧
        (LegalTextCleaner.clean_file tf fs d.textPathStr outP errs).2.2 = true) ∧
      ((LegalTextCleaner.update_doc ⟨d.source_url, outP⟩ d).text_cleaned = true ∧
        (LegalTextCleaner.update_doc ⟨d.source_url, outP⟩ d).status = "text_cleaned" ∧
        (LegalTextCleaner.update_doc ⟨d.source_url, outP⟩ d).cleaned_path = some outP) ∧
      (LegalTextCleaner.update_metadata [⟨d.source_url, outP⟩] time
          { documents := [d] }).total_cleaned = some 1 ∧
      LegalTextCleaner.cleaning_gate
        (LegalTextCleaner.clean_file tf fs d.textPathStr outP errs).1
        (LegalTextCleaner.update_doc ⟨d.source_url, outP⟩ d) = .skip := by
  intro tf fs d content outP errs time hread hveto hweb htp hne hnn
  have hclean : (LegalTextCleaner.clean_text tf content d.textPathStr errs).1 = content := by
    rw [LegalTextCleaner.clean_text_validate_false_pk tf content d.textPathStr errs hveto]
  have hfile : (LegalTextCleaner.clean_file tf fs d.textPathStr outP errs).1 =
      fs.write outP content := by
    unfold LegalTextCleaner.clean_file
    rw [hread]
    dsimp only [Option.getD_some]
    rw [show (LegalTextCleaner.clean_text tf content d.textPathStr errs).1 = content
          from hclean]
  refine ⟨⟨?_, rfl⟩, ⟨rfl, rfl, rfl⟩, ?_, ?_⟩
  · rw [hfile]
    unfold FileSys.write
    rw [if_pos rfl]
  · unfold LegalTextCleaner.update_metadata LegalTextCleaner.apply_infos
    simp [LegalTextCleaner.updateFirst, LegalTextCleaner.update_doc]
  · rw [hfile]
    unfold LegalTextCleaner.cleaning_gate
    have h3 : ¬ ((fs.write outP content)
        (LegalTextCleaner.update_doc ⟨d.source_url, outP⟩ d).textPathStr).isNone = true := by
      simp only [LegalTextCleaner.update_doc, Doc.textPathStr, FileSys.write]
      split
      · simp
      · rw [show pathStr d.text_path = d.textPathStr from rfl, hread]
        simp
    have h6 : ¬ ((fs.write outP content)
        (LegalTextCleaner.update_doc ⟨d.source_url, outP⟩ d).cleanedPathStr).isNone = true := by
      simp [LegalTextCleaner.update_doc, Doc.cleanedPathStr, pathStr, FileSys.write]
    rw [if_neg (by simp [LegalTextCleaner.update_doc, hweb]),
        if_neg (by simp [LegalTextCleaner.update_doc, htp]),
        if_neg h3,
        if_neg (by simp [LegalTextCleaner.update_doc, pathFalsyOrNull, hne, hnn]),
        if_neg (by simp [LegalTextCleaner.update_doc]),
        if_neg h6]

/-- Witness for C10: a one-character document (vetoed by the
100-character floor) is written back unchanged, reported cleaned,
marked in the registry, counted, and skipped by the next gate pass. -/
theorem veto_still_marks_cleaned_witness :
    ((LegalTextCleaner.clean_file id gateFs "t.txt" "out-t.txt" []).1 "out-t.txt" =
        some ['x'] ∧
      (LegalTextCleaner.clean_file id gateFs "t.txt" "out-t.txt" []).2.2 = true) ∧
    ((LegalTextCleaner.update_doc ⟨"u1", "out-t.txt"⟩ gateDoc).text_cleaned = true ∧
      (LegalTextCleaner.update_doc ⟨"u1", "out-t.txt"⟩ gateDoc).status = "text_cleaned" ∧
      (LegalTextCleaner.update_doc ⟨"u1", "out-t.txt"⟩ gateDoc).cleaned_path =
        some "out-t.txt") ∧
    (LegalTextCleaner.update_metadata [⟨"u1", "out-t.txt"⟩] "t1"
        { documents := [gateDoc] }).total_cleaned = some 1 ∧
    LegalTextCleaner.cleaning_gate
      (LegalTextCleaner.clean_file id gateFs "t.txt" "out-t.txt" []).1
      (LegalTextCleaner.update_doc ⟨"u1", "out-t.txt"⟩ gateDoc) = .skip :=
  veto_still_marks_cleaned id gateFs gateDoc ['x'] "out-t.txt" [] "t1"
    (by decide) (by decide) rfl (by decide) (by decide) (by decide)

/-- Helper: the chunk-status per-document update is idempotent on the
document value (it never touches `cleaned_path`, which is all it reads). -/
theorem chunk_status_step_idem (cpo : String → Option String)
    (vc : String → Bool) (d : Doc) :
    UpdateChunkStatus.step cpo vc (UpdateChunkStatus.step cpo vc d) =
      UpdateChunkStatus.step cpo vc d := by
  by_cases hp : pathFalsy d.cleaned_path = true
  · simp [UpdateChunkStatus.step, hp]
  · by_cases hok : UpdateChunkStatus.chunk_ok cpo vc (d.cleaned_path.getD "") = true <;>
      simp [UpdateChunkStatus.step, hp, hok, Doc.cleanedPathStr, pathStr]

/-- Helper: the chunk-status update preserves `cleaned_path`. -/
theorem chunk_status_step_cleaned_path (cpo : String → Option String)
    (vc : String → Bool) (d : Doc) :
    (UpdateChunkStatus.step cpo vc d).cleaned_path = d.cleaned_path := by
  by_cases hp : pathFalsy d.cleaned_path = true
  · simp [UpdateChunkStatus.step, hp]
  · by_cases hok : UpdateChunkStatus.chunk_ok cpo vc (d.cleaned_path.getD "") = true <;>
      simp [UpdateChunkStatus.step, hp, hok, Doc.cleanedPathStr, pathStr]

/-- Helper: a second chunk-status run only refreshes `last_updated`. -/
theorem chunk_status_second_run (cpo : String → Option String)
    (vc : String → Bool) (t1 t2 : String) (reg : Registry) :
    UpdateChunkStatus.main cpo vc t2 (UpdateChunkStatus.main cpo vc t1 reg) =
      { UpdateChunkStatus.main cpo vc t1 reg with last_updated := t2 } := by
  unfold UpdateChunkStatus.main
  dsimp only
  simp only [List.map_map, Registry.mk.injEq, and_true, true_and]
  constructor
  · exact List.map_congr_left fun d _ => chunk_status_step_idem cpo vc d
  · by_cases hck : reg.total_cleaned.isSome = true
    · by_cases hstale : reg.total_chunked.isSome = true
      · rw [if_pos hck, if_pos hck, if_pos hstale, if_pos hstale]
      · rw [if_pos hck, if_pos hck, if_neg hstale]
        rw [if_pos (by simp)]
    · rw [if_neg hck, if_neg hck]

/-- Helper: the upload per-record body is idempotent on the record. -/
theorem upload_step_idem (qdrantOk mongoOk : EmbRec → Bool) (r : EmbRec) :
    (UploadEmbeddings.upload_step qdrantOk mongoOk
      (UploadEmbeddings.upload_step qdrantOk mongoOk r).1).1 =
      (UploadEmbeddings.upload_step qdrantOk mongoOk r).1 := by
  obtain ⟨ch, emb, up, md⟩ := r
  cases up
  · cases hemb : emb.isEmpty
    · cases md with
      | none => simp [UploadEmbeddings.upload_step, hemb]
      | some meta =>
        cases hq : qdrantOk ⟨ch, emb, false, some meta⟩ <;>
          simp [UploadEmbeddings.upload_step, hemb, hq]
    · simp [UploadEmbeddings.upload_step, hemb]
  · simp [UploadEmbeddings.upload_step]

/-- Helper: a second upload pass over the rewritten log is the identity. -/
theorem upload_second_run (qdrantOk mongoOk : EmbRec → Bool) (file : LogFile) :
    UploadEmbeddings.upload_embeddings qdrantOk mongoOk
      (UploadEmbeddings.upload_embeddings qdrantOk mongoOk file) =
      UploadEmbeddings.upload_embeddings qdrantOk mongoOk file := by
  unfold UploadEmbeddings.upload_embeddings
  rw [show UploadEmbeddings.read_jsonl (UploadEmbeddings.rewrite_jsonl_with_flag
      (UploadEmbeddings.upload_loop qdrantOk mongoOk (UploadEmbeddings.read_jsonl file))) =
      UploadEmbeddings.upload_loop qdrantOk mongoOk (UploadEmbeddings.read_jsonl file) by
    simp [UploadEmbeddings.read_jsonl, UploadEmbeddings.rewrite_jsonl_with_flag,
      List.filterMap_map]]
  congr 1
  induction UploadEmbeddings.read_jsonl file with
  | nil => rfl
  | cons r rest ih =>
    simp [UploadEmbeddings.upload_loop, ih, upload_step_idem]

/-- Helper: the already-embedded check is monotone under appending to the
log. -/
theorem embeddings_exist_mono (t : Option String) (f g : LogFile)
    (h : AddEmbeddings.embeddings_exist_for t f = true) :
    AddEmbeddings.embeddings_exist_for t (f ++ g) = true := by
  unfold AddEmbeddings.embeddings_exist_for at *
  rw [List.any_append, h, Bool.true_or]

/-- Helper: after appending the records of a non-empty chunk list for a
document, the log contains a record carrying the document's title. -/
theorem embeddings_exist_after_append (embedder : String → List Int)
    (d : Doc) (i : Nat) (c : Chunk) (ct : List Chunk) (f : LogFile) :
    AddEmbeddings.embeddings_exist_for d.title
      (f ++ (AddEmbeddings.buildRecs embedder d i (c :: ct)).map some) = true := by
  unfold AddEmbeddings.embeddings_exist_for
  rw [List.any_append]
  simp [AddEmbeddings.buildRecs, AddEmbeddings.mkRecord]

/-- Helper: the embedding document loop only appends to the log. -/
theorem run_docs_file_ext (embedder : String → List Int)
    (chunkStore : String → Option (List Chunk)) :
    ∀ (docs : List Doc) (f : LogFile) (c : Nat),
      ∃ ext, (AddEmbeddings.run_docs embedder chunkStore docs (f, c)).2.1 = f ++ ext := by
  intro docs
  induction docs with
  | nil => intro f c; exact ⟨[], by simp [AddEmbeddings.run_docs]⟩
  | cons d rest ih =>
    intro f c
    by_cases hg : (!d.chunked || (d.embedded &&
        AddEmbeddings.embeddings_exist_for d.title f)) = true
    · obtain ⟨ext, hext⟩ := ih f c
      exact ⟨ext, by simp [AddEmbeddings.run_docs, AddEmbeddings.addStep, hg, hext]⟩
    · rcases hcs : chunkStore (pathStr d.chunked_path) with _ | chunks
      · obtain ⟨ext, hext⟩ := ih f c
        exact ⟨ext, by simp [AddEmbeddings.run_docs, AddEmbeddings.addStep, hg, hcs, hext]⟩
      · obtain ⟨ext, hext⟩ :=
          ih (f ++ (AddEmbeddings.buildRecs embedder d c chunks).map some)
            (c + chunks.length)
        refine ⟨(AddEmbeddings.buildRecs embedder d c chunks).map some ++ ext, ?_⟩
        simp [AddEmbeddings.run_docs, AddEmbeddings.addStep, hg, hcs, hext]

/-- Helper: re-running the embedding document loop over the documents it
just produced, against any extension of the log it just produced, is a
no-op: every document is either skipped or appends nothing. -/
theorem run_docs_noop (embedder : String → List Int)
    (chunkStore : String → Option (List Chunk)) :
    ∀ (docs : List Doc) (f : LogFile) (c : Nat) (F : LogFile) (c₂ : Nat),
      (∃ ext, F = (AddEmbeddings.run_docs embedder chunkStore docs (f, c)).2.1 ++ ext) →
      AddEmbeddings.run_docs embedder chunkStore
          (AddEmbeddings.run_docs embedder chunkStore docs (f, c)).1 (F, c₂) =
        ((AddEmbeddings.run_docs embedder chunkStore docs (f, c)).1, (F, c₂)) := by
  intro docs
  induction docs with
  | nil => intro f c F c₂ _; rfl
  | cons d rest ih =>
    intro f c F c₂ hF
    by_cases hg : (!d.chunked || (d.embedded &&
        AddEmbeddings.embeddings_exist_for d.title f)) = true
    · -- skipped in the first run
      have hstep : AddEmbeddings.addStep embedder chunkStore (f, c) d = ((f, c), d) := by
        simp [AddEmbeddings.addStep, hg]
      have hrun : AddEmbeddings.run_docs embedder chunkStore (d :: rest) (f, c) =
          (d :: (AddEmbeddings.run_docs embedder chunkStore rest (f, c)).1,
            (AddEmbeddings.run_docs embedder chunkStore rest (f, c)).2) := by
        simp [AddEmbeddings.run_docs, hstep]
      rw [hrun] at hF ⊢
      -- the guard holds again against the extended log F
      have hgF : (!d.chunked || (d.embedded &&
          AddEmbeddings.embeddings_exist_for d.title F)) = true := by
        cases hch : d.chunked with
        | false => simp
        | true =>
          rw [hch] at hg
          simp only [Bool.not_true, Bool.false_or, Bool.and_eq_true] at hg
          obtain ⟨ext, hext⟩ := hF
          obtain ⟨ext', hext'⟩ := run_docs_file_ext embedder chunkStore rest f c
          rw [hext, hext', List.append_assoc]
          simp [hg.1, embeddings_exist_mono d.title f (ext' ++ ext) hg.2]
      have hstepF : AddEmbeddings.addStep embedder chunkStore (F, c₂) d = ((F, c₂), d) := by
        simp [AddEmbeddings.addStep, hgF]
      have hrest := ih f c F c₂ hF
      simp only [AddEmbeddings.run_docs, hstepF, hrest]
    · rcases hcs : chunkStore (pathStr d.chunked_path) with _ | chunks
      · -- chunk file missing in the first run: document untouched
        have hstep : AddEmbeddings.addStep embedder chunkStore (f, c) d = ((f, c), d) := by
          simp [AddEmbeddings.addStep, hg, hcs]
        have hrun : AddEmbeddings.run_docs embedder chunkStore (d :: rest) (f, c) =
            (d :: (AddEmbeddings.run_docs embedder chunkStore rest (f, c)).1,
              (AddEmbeddings.run_docs embedder chunkStore rest (f, c)).2) := by
          simp [AddEmbeddings.run_docs, hstep]
        rw [hrun] at hF ⊢
        have hstepF : AddEmbeddings.addStep embedder chunkStore (F, c₂) d = ((F, c₂), d) := by
          by_cases hgF : (!d.chunked || (d.embedded &&
              AddEmbeddings.embeddings_exist_for d.title F)) = true
          · simp [AddEmbeddings.addStep, hgF]
          · simp [AddEmbeddings.addStep, hgF, hcs]
        have hrest := ih f c F c₂ hF
        simp only [AddEmbeddings.run_docs, hstepF, hrest]
      · -- the document was processed in the first run
        have hch : d.chunked = true := by
          cases hch : d.chunked with
          | true => rfl
          | false => rw [hch] at hg; simp at hg
        have hstep : AddEmbeddings.addStep embedder chunkStore (f, c) d =
            ((f ++ (AddEmbeddings.buildRecs embedder d c chunks).map some,
              c + chunks.length),
             { d with embedded := true, status := "embedded" }) := by
          simp [AddEmbeddings.addStep, hg, hcs]
        have hrun : AddEmbeddings.run_docs embedder chunkStore (d :: rest) (f, c) =
            ({ d with embedded := true, status := "embedded" } ::
              (AddEmbeddings.run_docs embedder chunkStore rest
                (f ++ (AddEmbeddings.buildRecs embedder d c chunks).map some,
                 c + chunks.length)).1,
             (AddEmbeddings.run_docs embedder chunkStore rest
                (f ++ (AddEmbeddings.buildRecs embedder d c chunks).map some,
                 c + chunks.length)).2) := by
          simp [AddEmbeddings.run_docs, hstep]
        rw [hrun] at hF ⊢
        have hstepF : AddEmbeddings.addStep embedder chunkStore (F, c₂)
            { d with embedded := true, status := "embedded" } =
            ((F, c₂), { d with embedded := true, status := "embedded" }) := by
          cases hEF : AddEmbeddings.embeddings_exist_for d.title F with
          | true => simp [AddEmbeddings.addStep, hch, hEF]
          | false =>
            cases chunks with
            | nil => simp [AddEmbeddings.addStep, hch, hEF, hcs, AddEmbeddings.buildRecs]
            | cons ch ct =>
              exfalso
              obtain ⟨ext, hext⟩ := hF
              obtain ⟨ext', hext'⟩ := run_docs_file_ext embedder chunkStore rest
                (f ++ (AddEmbeddings.buildRecs embedder d c (ch :: ct)).map some)
                (c + (ch :: ct).length)
              have : AddEmbeddings.embeddings_exist_for d.title F = true := by
                rw [hext, hext', List.append_assoc]
                exact embeddings_exist_mono d.title _ _
                  (embeddings_exist_after_append embedder d c ch ct f)
              rw [this] at hEF
              cases hEF
        have hrest := ih (f ++ (AddEmbeddings.buildRecs embedder d c chunks).map some)
          (c + chunks.length) F c₂ hF
        simp only [AddEmbeddings.run_docs, hstepF, hrest]

/-- Helper: a second embedding-stage run right after a completed one
changes neither the registry documents nor the log. -/
theorem add_second_run (embedder : String → List Int)
    (chunkStore : String → Option (List Chunk))
    (docs : List Doc) (file : LogFile) :
    AddEmbeddings.main embedder chunkStore
      (AddEmbeddings.main embedder chunkStore docs file).1
      (AddEmbeddings.main embedder chunkStore docs file).2 =
      AddEmbeddings.main embedder chunkStore docs file := by
  unfold AddEmbeddings.main
  dsimp only
  rw [run_docs_noop embedder chunkStore docs file
    (AddEmbeddings.get_last_id file + 1)
    (AddEmbeddings.run_docs embedder chunkStore docs
      (file, AddEmbeddings.get_last_id file + 1)).2.1
    (AddEmbeddings.get_last_id
      (AddEmbeddings.run_docs embedder chunkStore docs
        (file, AddEmbeddings.get_last_id file + 1)).2.1 + 1)
    ⟨[], by simp⟩]

/-- Helper: the cleaning loop never deletes a file. -/
theorem run_files_fs_mono (tf : List Char → List Char) (outPath : String → String) :
    ∀ (l : List Doc) (fs : FileSys) (errs : List VErr) (p : String),
      (fs p).isSome = true →
      (((LegalTextCleaner.run_files tf outPath fs errs l).1) p).isSome = true := by
  intro l
  induction l with
  | nil => intro fs errs p h; exact h
  | cons d rest ih =>
    intro fs errs p h
    simp only [LegalTextCleaner.run_files]
    apply ih
    unfold LegalTextCleaner.clean_file FileSys.write
    dsimp only
    by_cases hp : p = outPath d.textPathStr <;> simp [hp, h]

/-- Helper: after the cleaning loop, the output file of every processed
document exists. -/
theorem run_files_fs_written (tf : List Char → List Char) (outPath : String → String) :
    ∀ (l : List Doc) (fs : FileSys) (errs : List VErr) (d : Doc), d ∈ l →
      (((LegalTextCleaner.run_files tf outPath fs errs l).1)
        (outPath d.textPathStr)).isSome = true := by
  intro l
  induction l with
  | nil => intro fs errs d hd; cases hd
  | cons d0 rest ih =>
    intro fs errs d hd
    rcases List.mem_cons.mp hd with hd | hd
    · subst hd
      simp only [LegalTextCleaner.run_files]
      apply run_files_fs_mono
      unfold LegalTextCleaner.clean_file FileSys.write
      dsimp only
      rw [if_pos rfl]
      rfl
    · simp only [LegalTextCleaner.run_files]
      exact ih _ _ d hd

/-- Helper: the cleaning loop leaves every path outside its output set
untouched. -/
theorem run_files_fs_other (tf : List Char → List Char) (outPath : String → String) :
    ∀ (l : List Doc) (fs : FileSys) (errs : List VErr) (p : String),
      (∀ d ∈ l, outPath d.textPathStr ≠ p) →
      (LegalTextCleaner.run_files tf outPath fs errs l).1 p = fs p := by
  intro l
  induction l with
  | nil => intro fs errs p _; rfl
  | cons d rest ih =>
    intro fs errs p hne
    simp only [LegalTextCleaner.run_files]
    rw [ih _ _ p (fun d' hd' => hne d' (List.mem_cons_of_mem d hd'))]
    unfold LegalTextCleaner.clean_file FileSys.write
    dsimp only
    rw [if_neg ?_]
    exact fun hcontra => hne d (List.mem_cons_self d rest) hcontra.symm

/-- Helper: applying a batch of cleaning infos none of which matches the
head document passes over the head. -/
theorem apply_infos_skip :
    ∀ (infos : List LegalTextCleaner.CleanInfo) (docs : List Doc) (x : Doc),
      (∀ i ∈ infos, i.source_url ≠ x.source_url) →
      LegalTextCleaner.apply_infos infos (x :: docs) =
        x :: LegalTextCleaner.apply_infos infos docs := by
  intro infos
  induction infos with
  | nil => intro docs x _; rfl
  | cons i rest ih =>
    intro docs x h
    unfold LegalTextCleaner.apply_infos at *
    simp only [List.foldl_cons]
    have hcc : ¬ (x.source_url = i.source_url) :=
      fun hc => h i (List.mem_cons_self i rest) hc.symm
    rw [show LegalTextCleaner.updateFirst i (x :: docs) =
          x :: LegalTextCleaner.updateFirst i docs by
        rw [show LegalTextCleaner.updateFirst i (x :: docs) =
              (if x.source_url = i.source_url then
                LegalTextCleaner.update_doc i x :: docs
              else x :: LegalTextCleaner.updateFirst i docs) from rfl]
        rw [if_neg hcc]]
    exact ih _ x (fun i' hi' => h i' (List.mem_cons_of_mem i hi'))

/-- Helper: with pairwise-distinct `source_url`s, applying the infos
collected from the selected documents updates exactly the selected
documents, in place. -/
theorem apply_infos_map (outPath : String → String) :
    ∀ (docs : List Doc) (sel : Doc → Bool),
      (docs.map (fun d => d.source_url)).Nodup →
      LegalTextCleaner.apply_infos
        ((docs.filter sel).map (fun d => ⟨d.source_url, outPath d.textPathStr⟩)) docs =
        docs.map (fun d => if sel d then
          LegalTextCleaner.update_doc ⟨d.source_url, outPath d.textPathStr⟩ d else d) := by
  intro docs
  induction docs with
  | nil => intro sel _; rfl
  | cons d rest ih =>
    intro sel hnd
    rw [List.map_cons] at hnd
    obtain ⟨hnotin, hnd'⟩ := List.nodup_cons.mp hnd
    have hmem : ∀ i ∈ (rest.filter sel).map
        (fun d => (⟨d.source_url, outPath d.textPathStr⟩ :
          LegalTextCleaner.CleanInfo)), i.source_url ≠ d.source_url := by
      intro i hi
      obtain ⟨d'', hd'', rfl⟩ := List.mem_map.mp hi
      have : d''.source_url ∈ rest.map (fun d => d.source_url) :=
        List.mem_map.mpr ⟨d'', List.mem_of_mem_filter hd'', rfl⟩
      intro hc
      dsimp only at hc
      rw [hc] at this
      exact hnotin this
    by_cases hsel : sel d
    · rw [List.filter_cons_of_pos hsel]
      simp only [List.map_cons]
      rw [if_pos hsel]
      unfold LegalTextCleaner.apply_infos
      simp only [List.foldl_cons]
      rw [show LegalTextCleaner.updateFirst
            ⟨d.source_url, outPath d.textPathStr⟩ (d :: rest) =
            LegalTextCleaner.update_doc ⟨d.source_url, outPath d.textPathStr⟩ d :: rest by
          unfold LegalTextCleaner.updateFirst
          rw [if_pos rfl]]
      rw [show (List.foldl (fun acc info => LegalTextCleaner.updateFirst info acc)
            (LegalTextCleaner.update_doc ⟨d.source_url, outPath d.textPathStr⟩ d :: rest)
            ((rest.filter sel).map (fun d => ⟨d.source_url, outPath d.textPathStr⟩))) =
          LegalTextCleaner.apply_infos
            ((rest.filter sel).map (fun d => ⟨d.source_url, outPath d.textPathStr⟩))
            (LegalTextCleaner.update_doc ⟨d.source_url, outPath d.textPathStr⟩ d :: rest)
          from rfl]
      rw [apply_infos_skip _ _ _ (by
        intro i hi
        exact hmem i hi)]
      rw [ih sel hnd']
    · rw [List.filter_cons_of_neg hsel]
      simp only [List.map_cons]
      rw [if_neg hsel]
      rw [show ((rest.filter sel).map
          (fun d => (⟨d.source_url, outPath d.textPathStr⟩ :
            LegalTextCleaner.CleanInfo))) =
          ((rest.filter sel).map (fun d => ⟨d.source_url, outPath d.textPathStr⟩))
          from rfl]
      rw [apply_infos_skip _ _ _ hmem]
      rw [ih sel hnd']

/-- Helper: inversion of the cleaning gate's `process` outcome. -/
theorem cleaning_gate_process_inv (fs : FileSys) (d : Doc)
    (h : LegalTextCleaner.cleaning_gate fs d = .process) :
    d.source_website = "pakistan-code" ∧ pathFalsy d.text_path = false ∧
      (fs d.textPathStr).isSome = true := by
  unfold LegalTextCleaner.cleaning_gate at h
  split_ifs at h <;> simp_all [Option.isNone_iff_eq_none, Option.isSome_iff_ne_none]

/-- Helper: inversion of the cleaning gate's `skip` outcome. -/
theorem cleaning_gate_skip_inv (fs : FileSys) (d : Doc)
    (h : LegalTextCleaner.cleaning_gate fs d = .skip) :
    d.source_website = "pakistan-code" ∧ pathFalsy d.text_path = false ∧
      (fs d.textPathStr).isSome = true ∧ pathFalsyOrNull d.cleaned_path = false ∧
      d.text_cleaned = true ∧ (fs d.cleanedPathStr).isSome = true := by
  unfold LegalTextCleaner.cleaning_gate at h
  split_ifs at h <;> simp_all [Option.isNone_iff_eq_none, Option.isSome_iff_ne_none]

/-- Helper: inversion of the cleaning gate's `excluded` outcome. -/
theorem cleaning_gate_excluded_inv (fs : FileSys) (d : Doc)
    (h : LegalTextCleaner.cleaning_gate fs d = .excluded) :
    d.source_website ≠ "pakistan-code" ∨ pathFalsy d.text_path = true ∨
      (fs d.textPathStr).isNone = true := by
  unfold LegalTextCleaner.cleaning_gate at h
  split_ifs at h <;> simp_all

/-- Helper: introduction of the cleaning gate's `excluded` outcome. -/
theorem cleaning_gate_excluded_intro (fs : FileSys) (d : Doc)
    (h : d.source_website ≠ "pakistan-code" ∨ pathFalsy d.text_path = true ∨
      (fs d.textPathStr).isNone = true) :
    LegalTextCleaner.cleaning_gate fs d = .excluded := by
  unfold LegalTextCleaner.cleaning_gate
  rcases h with h | h | h
  · rw [if_pos h]
  · split_ifs <;> simp_all
  · split_ifs <;> simp_all

/-- Helper: introduction of the cleaning gate's `skip` outcome. -/
theorem cleaning_gate_skip_intro (fs : FileSys) (d : Doc)
    (h1 : d.source_website = "pakistan-code") (h2 : pathFalsy d.text_path = false)
    (h3 : (fs d.textPathStr).isSome = true)
    (h4 : pathFalsyOrNull d.cleaned_path = false) (h5 : d.text_cleaned = true)
    (h6 : (fs d.cleanedPathStr).isSome = true) :
    LegalTextCleaner.cleaning_gate fs d = .skip := by
  unfold LegalTextCleaner.cleaning_gate
  split_ifs <;> simp_all

/-- Helper: a second cleaning run immediately after a completed one
selects no documents, writes no files, and returns the registry and
filesystem unchanged.  Hypotheses: `source_url`s are pairwise distinct
(the registry's identity invariant), and the output-path derivation
neither collides with any text path nor produces an empty/`null` path. -/
theorem cleaning_second_run (tf : List Char → List Char) (outPath : String → String)
    (fs : FileSys) (t1 t2 : String) (reg : Registry)
    (hnd : (reg.documents.map (fun d => d.source_url)).Nodup)
    (hot : ∀ d ∈ reg.documents, ∀ d' ∈ reg.documents,
      outPath d'.textPathStr ≠ d.textPathStr)
    (hon : ∀ d ∈ reg.documents,
      outPath d.textPathStr ≠ "" ∧ outPath d.textPathStr ≠ "null") :
    LegalTextCleaner.process_all_files tf outPath
        (LegalTextCleaner.process_all_files tf outPath fs t1 reg).2.1 t2
        (LegalTextCleaner.process_all_files tf outPath fs t1 reg).1 =
      ((LegalTextCleaner.process_all_files tf outPath fs t1 reg).1,
        (LegalTextCleaner.process_all_files tf outPath fs t1 reg).2.1, []) := by
  by_cases hemp : (reg.documents.filter fun d =>
      LegalTextCleaner.cleaning_gate fs d = .process).isEmpty
  · have hP : LegalTextCleaner.process_all_files tf outPath fs t1 reg = (reg, fs, []) := by
      unfold LegalTextCleaner.process_all_files
      rw [if_pos hemp]
    rw [hP]
    unfold LegalTextCleaner.process_all_files
    rw [if_pos hemp]
  · have hPfs : (LegalTextCleaner.process_all_files tf outPath fs t1 reg).2.1 =
        (LegalTextCleaner.run_files tf outPath fs []
          (reg.documents.filter fun d =>
            LegalTextCleaner.cleaning_gate fs d = .process)).1 := by
      unfold LegalTextCleaner.process_all_files
      rw [if_neg hemp]
    have hPreg : (LegalTextCleaner.process_all_files tf outPath fs t1 reg).1 =
        LegalTextCleaner.update_metadata
          ((reg.documents.filter fun d =>
            LegalTextCleaner.cleaning_gate fs d = .process).map
              (fun d => ⟨d.source_url, outPath d.textPathStr⟩)) t1 reg := by
      unfold LegalTextCleaner.process_all_files
      rw [if_neg hemp]
      dsimp only
      rw [run_files_infos]
    rw [hPfs, hPreg]
    have hinfos_ne : ¬ ((reg.documents.filter fun d =>
        LegalTextCleaner.cleaning_gate fs d = .process).map
          (fun d => (⟨d.source_url, outPath d.textPathStr⟩ :
            LegalTextCleaner.CleanInfo))).isEmpty = true := by
      simp only [List.isEmpty_iff, List.map_eq_nil_iff]
      simpa [List.isEmpty_iff] using hemp
    have hdocs' : (LegalTextCleaner.update_metadata
        ((reg.documents.filter fun d =>
          LegalTextCleaner.cleaning_gate fs d = .process).map
            (fun d => ⟨d.source_url, outPath d.textPathStr⟩)) t1 reg).documents =
        reg.documents.map (fun d =>
          if decide (LegalTextCleaner.cleaning_gate fs d = .process) then
            LegalTextCleaner.update_doc ⟨d.source_url, outPath d.textPathStr⟩ d
          else d) := by
      unfold LegalTextCleaner.update_metadata
      rw [if_neg hinfos_ne]
      dsimp only
      exact apply_infos_map outPath reg.documents _ hnd
    have key : ∀ dd ∈ (LegalTextCleaner.update_metadata
        ((reg.documents.filter fun d =>
          LegalTextCleaner.cleaning_gate fs d = .process).map
            (fun d => ⟨d.source_url, outPath d.textPathStr⟩)) t1 reg).documents,
        ¬ (LegalTextCleaner.cleaning_gate
            (LegalTextCleaner.run_files tf outPath fs []
              (reg.documents.filter fun d =>
                LegalTextCleaner.cleaning_gate fs d = .process)).1 dd = .process) := by
      rw [hdocs']
      intro dd hdd
      obtain ⟨d, hd, rfl⟩ := List.mem_map.mp hdd
      by_cases hsel : LegalTextCleaner.cleaning_gate fs d = .process
      · rw [if_pos (by simpa using hsel)]
        obtain ⟨hw, hpf, hsome⟩ := cleaning_gate_process_inv fs d hsel
        have hdC : d ∈ reg.documents.filter fun d =>
            LegalTextCleaner.cleaning_gate fs d = .process :=
          List.mem_filter.mpr ⟨hd, by simpa using hsel⟩
        obtain ⟨hne, hnn⟩ := hon d hd
        rw [cleaning_gate_skip_intro _ _
          (by simpa [LegalTextCleaner.update_doc] using hw)
          (by simpa [LegalTextCleaner.update_doc] using hpf)
          (by
            simp only [LegalTextCleaner.update_doc]
            exact run_files_fs_mono tf outPath _ fs [] _ hsome)
          (by
            simp only [LegalTextCleaner.update_doc, pathFalsyOrNull]
            simp [hne, hnn])
          (by simp [LegalTextCleaner.update_doc])
          (by
            simp only [LegalTextCleaner.update_doc, Doc.cleanedPathStr, pathStr,
              Option.getD_some]
            exact run_files_fs_written tf outPath _ fs [] d hdC)]
        simp
      · rw [if_neg (by simpa using hsel)]
        cases hgd : LegalTextCleaner.cleaning_gate fs d with
        | process => exact absurd hgd hsel
        | skip =>
          obtain ⟨hw, hpf, hsome, hcp, hfl, hcs⟩ := cleaning_gate_skip_inv fs d hgd
          rw [cleaning_gate_skip_intro _ _ hw hpf
            (run_files_fs_mono tf outPath _ fs [] _ hsome) hcp hfl
            (run_files_fs_mono tf outPath _ fs [] _ hcs)]
          simp
        | excluded =>
          rcases cleaning_gate_excluded_inv fs d hgd with hx | hx | hx
          · rw [cleaning_gate_excluded_intro _ d (Or.inl hx)]
            simp
          · rw [cleaning_gate_excluded_intro _ d (Or.inr (Or.inl hx))]
            simp
          · have hother : (LegalTextCleaner.run_files tf outPath fs []
                (reg.documents.filter fun d =>
                  LegalTextCleaner.cleaning_gate fs d = .process)).1 d.textPathStr =
                fs d.textPathStr := by
              apply run_files_fs_other
              intro dc hdc
              exact hot d hd dc (List.mem_of_mem_filter hdc)
            rw [cleaning_gate_excluded_intro _ d (Or.inr (Or.inr (by
              rw [hother]; exact hx)))]
            simp
    have hemp2 : ((LegalTextCleaner.update_metadata
        ((reg.documents.filter fun d =>
          LegalTextCleaner.cleaning_gate fs d = .process).map
            (fun d => ⟨d.source_url, outPath d.textPathStr⟩)) t1 reg).documents.filter
          (fun dd => LegalTextCleaner.cleaning_gate
            (LegalTextCleaner.run_files tf outPath fs []
              (reg.documents.filter fun d =>
                LegalTextCleaner.cleaning_gate fs d = .process)).1 dd =
              .process)).isEmpty = true := by
      rw [List.isEmpty_iff]
      rw [List.filter_eq_nil_iff]
      intro a ha
      simpa using key a ha
    unfold LegalTextCleaner.process_all_files
    rw [if_pos hemp2]

/-- Counterexample for C6: running the chunk-status stage a second time
immediately after a completed run, with no intervening changes, still
mutates the registry — it unconditionally refreshes `last_updated` and
rewrites the file. -/
theorem stage_idempotence_cex :
    UpdateChunkStatus.main cpoNone vcFalse "t2"
        (UpdateChunkStatus.main cpoNone vcFalse "t1" regCleaned) ≠
      UpdateChunkStatus.main cpoNone vcFalse "t1" regCleaned := by
  decide

/-- C6 (amended): a second run immediately after a completed one is a
no-op for the cleaning stage (no document selected, no file written, no
registry change, under the registry's unique-`source_url` invariant and
a collision-free output-path derivation), for the embedding stage (no
record appended, registry and log values unchanged) and for the upload
stage (log value unchanged); the chunk-status stage leaves every
document record and every aggregate counter unchanged but always
refreshes `last_updated` and rewrites the registry file. -/
theorem stage_idempotence_amended :
    (∀ (tf : List Char → List Char) (outPath : String → String) (fs : FileSys)
       (t1 t2 : String) (reg : Registry),
      (reg.documents.map (fun d => d.source_url)).Nodup →
      (∀ d ∈ reg.documents, ∀ d' ∈ reg.documents,
        outPath d'.textPathStr ≠ d.textPathStr) →
      (∀ d ∈ reg.documents,
        outPath d.textPathStr ≠ "" ∧ outPath d.textPathStr ≠ "null") →
      LegalTextCleaner.process_all_files tf outPath
          (LegalTextCleaner.process_all_files tf outPath fs t1 reg).2.1 t2
          (LegalTextCleaner.process_all_files tf outPath fs t1 reg).1 =
        ((LegalTextCleaner.process_all_files tf outPath fs t1 reg).1,
          (LegalTextCleaner.process_all_files tf outPath fs t1 reg).2.1, [])) ∧
    (∀ (cpo : String → Option String) (vc : String → Bool) (t1 t2 : String)
       (reg : Registry),
      UpdateChunkStatus.main cpo vc t2 (UpdateChunkStatus.main cpo vc t1 reg) =
        { UpdateChunkStatus.main cpo vc t1 reg with last_updated := t2 }) ∧
    (∀ (embedder : String → List Int) (chunkStore : String → Option (List Chunk))
       (docs : List Doc) (file : LogFile),
      AddEmbeddings.main embedder chunkStore
          (AddEmbeddings.main embedder chunkStore docs file).1
          (AddEmbeddings.main embedder chunkStore docs file).2 =
        AddEmbeddings.main embedder chunkStore docs file) ∧
    (∀ (qdrantOk mongoOk : EmbRec → Bool) (file : LogFile),
      UploadEmbeddings.upload_embeddings qdrantOk mongoOk
          (UploadEmbeddings.upload_embeddings qdrantOk mongoOk file) =
        UploadEmbeddings.upload_embeddings qdrantOk mongoOk file) :=
  ⟨cleaning_second_run, chunk_status_second_run, add_second_run, upload_second_run⟩

/-- Witness for C6 (amended): concrete second runs of all four stages. -/
theorem stage_idempotence_amended_witness :
    (LegalTextCleaner.process_all_files id outPathFix
        (LegalTextCleaner.process_all_files id outPathFix gateFs "t1" regGate).2.1 "t2"
        (LegalTextCleaner.process_all_files id outPathFix gateFs "t1" regGate).1 =
      ((LegalTextCleaner.process_all_files id outPathFix gateFs "t1" regGate).1,
        (LegalTextCleaner.process_all_files id outPathFix gateFs "t1" regGate).2.1, [])) ∧
    (UpdateChunkStatus.main cpoNone vcFalse "t2"
        (UpdateChunkStatus.main cpoNone vcFalse "t1" regGate) =
      { UpdateChunkStatus.main cpoNone vcFalse "t1" regGate with last_updated := "t2" }) ∧
    (AddEmbeddings.main embedder1 chunkStore1
        (AddEmbeddings.main embedder1 chunkStore1 [embDoc] logFile1).1
        (AddEmbeddings.main embedder1 chunkStore1 [embDoc] logFile1).2 =
      AddEmbeddings.main embedder1 chunkStore1 [embDoc] logFile1) ∧
    (UploadEmbeddings.upload_embeddings (fun _ => true) (fun _ => true)
        (UploadEmbeddings.upload_embeddings (fun _ => true) (fun _ => true)
          [some uploadRec]) =
      UploadEmbeddings.upload_embeddings (fun _ => true) (fun _ => true)
        [some uploadRec]) :=
  ⟨stage_idempotence_amended.1 id outPathFix gateFs "t1" "t2" regGate
      (by decide)
      (by
        intro d hd d' hd'
        rw [show regGate.documents = [gateDoc] from rfl, List.mem_singleton] at hd hd'
        subst hd; subst hd'
        decide)
      (by
        intro d hd
        rw [show regGate.documents = [gateDoc] from rfl, List.mem_singleton] at hd
        subst hd
        decide),
   stage_idempotence_amended.2.1 cpoNone vcFalse "t1" "t2" regGate,
   stage_idempotence_amended.2.2.1 embedder1 chunkStore1 [embDoc] logFile1,
   stage_idempotence_amended.2.2.2 (fun _ => true) (fun _ => true) [some uploadRec]⟩
